import Mathlib

/-!
Verification development for the DistX vector search engine.

The definitions below are a shallow embedding of the Rust sources:

* `src/lib/core/src/simd.rs`        — distance kernels (modelled with exact arithmetic;
  the SIMD/scalar accumulator split is algebraically the plain sum);
* `src/lib/core/src/hnsw.rs`        — the HNSW index, generic over the scalar ring so the
  same definitions serve exact integer evaluations and the real-valued collection model;
* `src/lib/core/src/vector.rs`      — the `Vector` operations over `ℝ`;
* `src/lib/core/src/bm25.rs`        — the BM25 inverted index;
* `src/lib/core/src/multivector.rs` — MaxSim scoring over `ℚ`;
* `src/lib/core/src/collection.rs`  — the `Collection` state machine;
* `src/lib/core/src/background.rs`  — the HNSW rebuild job, as a state transformer;
* `src/lib/storage/src/persistence.rs` — fork-based persistence, as a transformer of an
  abstract file-system state.

Modelling conventions:

* `f32` values are modelled by exact arithmetic (`ℝ` where square roots occur, `ℚ`/`ℤ`
  where they do not); `f32::INFINITY` / `f32::NEG_INFINITY` are modelled by `±2^128`,
  which bounds every finite `f32`.
* Rust `HashMap`s are modelled by association lists; iteration order, which is
  unspecified in the source, is the list order.
* Operations that can panic (`Vec` indexing, `Vec::remove`) or perform an unchecked
  out-of-bounds read (`get_unchecked` on the vector arena) return `Option`, with `none`
  marking the panic / undefined behaviour.
* `rand::random` draws are an explicit oracle argument (`List Bool`, `true` meaning the
  drawn float was `< 0.5`).
-/

set_option linter.unusedVariables false

namespace DistX

/-! ## Association-list model of `HashMap` -/

/-- Lookup in an association list (model of `HashMap::get`). -/
def lookupA {β : Type} : List (String × β) → String → Option β
  | [], _ => none
  | (k0, v0) :: rest, k => if k0 = k then some v0 else lookupA rest k

/-- Insert-or-replace in an association list (model of `HashMap::insert`). -/
def insertA {β : Type} : List (String × β) → String → β → List (String × β)
  | [], k, v => [(k, v)]
  | (k0, v0) :: rest, k, v =>
    if k0 = k then (k, v) :: rest else (k0, v0) :: insertA rest k v

/-- Remove a key from an association list (model of `HashMap::remove`). -/
def eraseA {β : Type} : List (String × β) → String → List (String × β)
  | [], _ => []
  | (k0, v0) :: rest, k => if k0 = k then rest else (k0, v0) :: eraseA rest k

/-- Add one to a counter entry, inserting `1` if absent
(model of `*map.entry(k).or_insert(0) += 1`). -/
def bumpA : List (String × ℕ) → String → List (String × ℕ)
  | [], k => [(k, 1)]
  | (k0, v0) :: rest, k =>
    if k0 = k then (k0, v0 + 1) :: rest else (k0, v0) :: bumpA rest k

/-- Saturating decrement of a counter entry, no-op if absent
(model of `if let Some(df) = map.get_mut(k) { *df = df.saturating_sub(1) }`;
`ℕ` subtraction saturates like `u32::saturating_sub`). -/
def decA : List (String × ℕ) → String → List (String × ℕ)
  | [], _ => []
  | (k0, v0) :: rest, k =>
    if k0 = k then (k0, v0 - 1) :: rest else (k0, v0) :: decA rest k

/-! ## Distance kernels — `src/lib/core/src/simd.rs`

All SIMD variants and the two-accumulator scalar fallbacks compute, in exact
arithmetic, the plain sum of products; they are modelled by that sum. -/

/-- Model of `dot_product_simd`: `0.0` on length mismatch, otherwise the dot product. -/
def dot_product_simd {α : Type} [LinearOrderedCommRing α] (a b : List α) : α :=
  if a.length = b.length then (List.zipWith (fun x y => x * y) a b).sum else 0

/-- Sum of squared differences. `l2_distance_simd` is the square root of this; the HNSW
code compares `l2` values only for ordering, and `Real.sqrt` is strictly monotone on
nonnegatives, so ordering by the squares is the same ordering. -/
def l2_sq {α : Type} [LinearOrderedCommRing α] (a b : List α) : α :=
  (List.zipWith (fun x y => (x - y) * (x - y)) a b).sum

/-! ## HNSW index — `src/lib/core/src/hnsw.rs`

Generic over the scalar ring `α` and the stored point type `P`.  The id and vector of a
point are read through the explicit projections `idOf` / `vecOf`.  The `VisitedSet`
generation bitmap is modelled by its observable set semantics (a list of visited
indices). -/

/-- Model of `HnswNode`. -/
structure HnswNode (P : Type) where
  point : P
  layers : List (List ℕ)

/-- Model of `HnswIndex`. The `visited` scratch set is modelled locally inside
`search_layer` rather than stored, since `clear` is called on entry. -/
structure HnswIndex (α : Type) (P : Type) where
  nodes : List (HnswNode P)
  vectors : List α
  dim : ℕ
  point_id_to_index : List (String × ℕ)
  max_connections : ℕ
  max_layers : ℕ
  ef_construction : ℕ

/-- Model of `HnswIndex::new`. -/
def HnswIndex.new (α P : Type) (max_connections max_layers : ℕ) : HnswIndex α P :=
  { nodes := [], vectors := [], dim := 0, point_id_to_index := [],
    max_connections := max_connections, max_layers := max_layers, ef_construction := 200 }

/-- Model of `HnswIndex::get_vector`. The source reads
`vectors.get_unchecked(start..start + dim)`; reading past the end of the arena is
undefined behaviour, modelled by `none`. -/
def HnswIndex.get_vector {α P : Type} (h : HnswIndex α P) (node_idx : ℕ) : Option (List α) :=
  if node_idx * h.dim + h.dim ≤ h.vectors.length then
    some ((h.vectors.drop (node_idx * h.dim)).take h.dim)
  else none

/-- Model of `HnswIndex::distance_to_node`: `1 - dot(query, node_vec)`. -/
def HnswIndex.distance_to_node {α : Type} [LinearOrderedCommRing α] {P : Type}
    (h : HnswIndex α P) (query : List α) (node_idx : ℕ) : Option α :=
  (h.get_vector node_idx).map (fun node_vec => 1 - dot_product_simd query node_vec)

/-- Model of `HnswIndex::select_layer`: starting at layer 0, while
`layer < max_layers - 1` and the next random draw is `< 0.5` (oracle value `true`),
increment. An exhausted oracle stops the walk (it is a finite prefix of the stream). -/
def select_layer_go (max_layers : ℕ) : List Bool → ℕ → ℕ
  | [], layer => layer
  | c :: cs, layer =>
    if layer < max_layers - 1 ∧ c = true then select_layer_go max_layers cs (layer + 1)
    else layer

/-- Layer selection from a coin oracle. -/
def select_layer (max_layers : ℕ) (coins : List Bool) : ℕ :=
  select_layer_go max_layers coins 0

/-- State of the `search_layer` loop: the candidate min-heap and result max-heap are
modelled as lists of `(node index, distance)` pairs; `pop` extracts the extremal
element (the earliest one on ties — the source heap leaves tie order unspecified). -/
structure SLState (α : Type) where
  candidates : List (ℕ × α)
  results : List (ℕ × α)
  visited : List ℕ
  worst_dist : α

/-- Pop a minimum-distance element (model of `BinaryHeap::pop` on the candidate heap). -/
def heapPopMin {α : Type} [LinearOrderedCommRing α] :
    List (ℕ × α) → Option ((ℕ × α) × List (ℕ × α))
  | [] => none
  | c :: cs =>
    match heapPopMin cs with
    | none => some (c, [])
    | some (m, rest) => if c.2 ≤ m.2 then some (c, cs) else some (m, c :: rest)

/-- Pop a maximum-distance element (model of `BinaryHeap::pop` on the result heap). -/
def heapPopMax {α : Type} [LinearOrderedCommRing α] :
    List (ℕ × α) → Option ((ℕ × α) × List (ℕ × α))
  | [] => none
  | c :: cs =>
    match heapPopMax cs with
    | none => some (c, [])
    | some (m, rest) => if m.2 ≤ c.2 then some (c, cs) else some (m, c :: rest)

/-- Distance of the worst element (model of `results.peek()` after a pop). -/
def heapPeekMaxDist {α : Type} [LinearOrderedCommRing α] (l : List (ℕ × α)) (dflt : α) : α :=
  match heapPopMax l with
  | none => dflt
  | some (m, _) => m.2

/-- One neighbour of the inner `for` loop of `search_layer`: skip if visited, compute the
distance (a potentially out-of-bounds arena read for a stale index), then push / evict
exactly as the source does. -/
def processNeighbor {α : Type} [LinearOrderedCommRing α] {P : Type}
    (h : HnswIndex α P) (query : List α) (ef : ℕ) (st : SLState α) (n : ℕ) :
    Option (SLState α) :=
  if st.visited.contains n then some st
  else
    match h.distance_to_node query n with
    | none => none
    | some dist =>
      let visited := n :: st.visited
      if st.results.length < ef ∨ dist < st.worst_dist then
        let candidates := (n, dist) :: st.candidates
        let results := (n, dist) :: st.results
        if ef < results.length then
          match heapPopMax results with
          | none => none
          | some (_, results2) =>
            some { candidates := candidates, results := results2, visited := visited,
                   worst_dist := heapPeekMaxDist results2 st.worst_dist }
        else
          some { candidates := candidates, results := results, visited := visited,
                 worst_dist := if st.worst_dist < dist then dist else st.worst_dist }
      else some { st with visited := visited }

/-- The inner `for` loop of `search_layer` over the neighbour buffer. -/
def processNeighbors {α : Type} [LinearOrderedCommRing α] {P : Type}
    (h : HnswIndex α P) (query : List α) (ef : ℕ) :
    SLState α → List ℕ → Option (SLState α)
  | st, [] => some st
  | st, n :: ns =>
    match processNeighbor h query ef st n with
    | none => none
    | some st2 => processNeighbors h query ef st2 ns

/-- The `while let Some(...) = candidates.pop()` loop of `search_layer`.  Fuel bounds the
iteration count; each iteration pops one candidate and candidates are pushed at most
once per distinct visited index, so `search_layer_fuel` below always suffices and the
`0` case is unreachable in a run started with adequate fuel. -/
def search_layer_loop {α : Type} [LinearOrderedCommRing α] {P : Type}
    (h : HnswIndex α P) (query : List α) (ef layer : ℕ) :
    ℕ → SLState α → Option (List (ℕ × α))
  | 0, _ => none
  | fuel + 1, st =>
    match heapPopMin st.candidates with
    | none => some st.results
    | some ((current_idx, current_dist), rest) =>
      if ef ≤ st.results.length ∧ st.worst_dist < current_dist then some st.results
      else
        match h.nodes.get? current_idx with
        | none => none
        | some node =>
          let neighbor_buffer := if layer < node.layers.length then node.layers.getD layer [] else []
          if neighbor_buffer.isEmpty then
            search_layer_loop h query ef layer fuel { st with candidates := rest }
          else
            match processNeighbors h query ef { st with candidates := rest } neighbor_buffer with
            | none => none
            | some st2 => search_layer_loop h query ef layer fuel st2

/-- Sufficient fuel for `search_layer_loop`: one plus the entry push plus one push per
neighbour-list entry of the whole graph. -/
def search_layer_fuel {α P : Type} (h : HnswIndex α P) : ℕ :=
  2 + h.nodes.length + (h.nodes.map (fun n => (n.layers.map List.length).sum)).sum

/-- Model of `HnswIndex::search_layer`.  Both heaps are seeded with the entry point; the
final result heap is drained and sorted ascending by distance (`sort_unstable_by`; ties
are in unspecified order in the source). -/
def HnswIndex.search_layer {α : Type} [LinearOrderedCommRing α] {P : Type}
    (h : HnswIndex α P) (query : List α) (entry_point ef layer : ℕ) :
    Option (List (ℕ × α)) :=
  match h.distance_to_node query entry_point with
  | none => none
  | some entry_dist =>
    match search_layer_loop h query ef layer (search_layer_fuel h)
        { candidates := [(entry_point, entry_dist)], results := [(entry_point, entry_dist)],
          visited := [entry_point], worst_dist := entry_dist } with
    | none => none
    | some results => some (results.insertionSort (fun a b => a.2 ≤ b.2))

/-- The descend-the-layers loop shared verbatim by `insert` (descending to the chosen
layer) and `search` (descending to layer 1): run `search_layer` with `ef = 1` at the
current layer and step down while it returns a non-empty list. The loop has no
observable effect beyond possible panics inside `search_layer`. -/
def descend_layers {α : Type} [LinearOrderedCommRing α] {P : Type}
    (h : HnswIndex α P) (query : List α) (entry_point target_layer : ℕ) :
    ℕ → Option Unit
  | 0 => some ()
  | current + 1 =>
    if target_layer < current + 1 then
      match h.search_layer query entry_point 1 (current + 1) with
      | none => none
      | some neighbors => if neighbors.isEmpty then some () else
          descend_layers h query entry_point target_layer current
    else some ()

/-- Comparator of the back-edge pruning sort: compare squared L2 distances to the
neighbour's own vector when both indices are in range, otherwise `Equal` (the source
compares `l2_distance_simd` values, a monotone image of the squares).  The guarded
`get_vector` reads are in bounds for a well-formed arena; `getD []` marks them. -/
def prune_cmp {α : Type} [LinearOrderedCommRing α] {P : Type}
    (h : HnswIndex α P) (neighbor_vec : List α) (a b : ℕ) : Ordering :=
  if a < h.nodes.length ∧ b < h.nodes.length then
    let dist_a := l2_sq neighbor_vec ((h.get_vector a).getD [])
    let dist_b := l2_sq neighbor_vec ((h.get_vector b).getD [])
    if dist_a < dist_b then .lt else if dist_b < dist_a then .gt else .eq
  else .eq

/-- Ordered insert for `sortByCmp`. -/
def sortByCmpInsert {β : Type} (cmp : β → β → Ordering) (x : β) : List β → List β
  | [] => [x]
  | y :: ys => if cmp x y = .gt then y :: sortByCmpInsert cmp x ys else x :: y :: ys

/-- Stable insertion sort by an `Ordering` comparator (model of `Vec::sort_by`). -/
def sortByCmp {β : Type} (cmp : β → β → Ordering) : List β → List β
  | [] => []
  | x :: xs => sortByCmpInsert cmp x (sortByCmp cmp xs)

/-- Model of one iteration of the back-edge loop at the end of `HnswIndex::insert`:
push a back edge to the new node, and prune the neighbour's list to `2 * M` entries
when it grows past that bound. -/
def add_back_edge {α : Type} [LinearOrderedCommRing α] {P : Type}
    (h : HnswIndex α P) (neighbor_idx node_idx layer : ℕ) : HnswIndex α P :=
  match h.nodes.get? neighbor_idx with
  | none => h
  | some nbr =>
    if layer < nbr.layers.length then
      let lst := nbr.layers.getD layer [] ++ [node_idx]
      let lst2 :=
        if h.max_connections * 2 < lst.length then
          let neighbor_vec := (h.get_vector neighbor_idx).getD []
          (sortByCmp (prune_cmp h neighbor_vec) lst).take (h.max_connections * 2)
        else lst
      { h with nodes := h.nodes.set neighbor_idx { nbr with layers := nbr.layers.set layer lst2 } }
    else h

/-- The back-edge loop of `HnswIndex::insert` over the chosen neighbours. -/
def add_back_edges {α : Type} [LinearOrderedCommRing α] {P : Type} :
    HnswIndex α P → List ℕ → ℕ → ℕ → HnswIndex α P
  | h, [], _, _ => h
  | h, n :: ns, node_idx, layer =>
    add_back_edges (add_back_edge h n node_idx layer) ns node_idx layer

/-- Model of `HnswIndex::insert`.  The coin oracle drives `select_layer`.  Note the
arena is extended before the node is pushed, exactly as in the source. -/
def HnswIndex.insert {α : Type} [LinearOrderedCommRing α] {P : Type}
    (idOf : P → String) (vecOf : P → List α)
    (h : HnswIndex α P) (point : P) (coins : List Bool) : Option (HnswIndex α P) :=
  let id_str := idOf point
  let layer := select_layer h.max_layers coins
  let h0 := if h.dim = 0 then { h with dim := (vecOf point).length } else h
  let h1 := { h0 with vectors := h0.vectors ++ vecOf point }
  let node : HnswNode P := { point := point, layers := List.replicate (layer + 1) [] }
  if h1.nodes.isEmpty then
    some { h1 with nodes := [node],
                   point_id_to_index := insertA h1.point_id_to_index id_str 0 }
  else
    let entry_point := 0
    let query := vecOf point
    match descend_layers h1 query entry_point layer (h1.max_layers - 1) with
    | none => none
    | some _ =>
      match (if h1.nodes.isEmpty then some [] else
             h1.search_layer query entry_point h1.ef_construction layer) with
      | none => none
      | some cands =>
        let cands2 := cands.insertionSort (fun a b => a.2 ≤ b.2)
        let neighbors := (cands2.take h1.max_connections).map Prod.fst
        let node2 := { node with layers := node.layers.set layer neighbors }
        let h2 := { h1 with nodes := h1.nodes ++ [node2] }
        let node_idx := h2.nodes.length - 1
        let h3 := { h2 with point_id_to_index := insertA h2.point_id_to_index id_str node_idx }
        some (add_back_edges h3 neighbors node_idx layer)

/-- Rebuild of `point_id_to_index` after a removal (`index_map.clear()` followed by
re-inserting every node's id at its new position). -/
def reindex {P : Type} (idOf : P → String) (nodes : List (HnswNode P)) : List (String × ℕ) :=
  nodes.enum.foldl (fun m p => insertA m (idOf p.2.point) p.1) []

/-- Model of `HnswIndex::remove`: splice the arena (the drain is guarded by
`end <= vectors.len()` in the source), remove the node (`Vec::remove` panics — `none` —
if the index is out of bounds), and rebuild the id map. Stale indices in other nodes'
neighbour lists are left untouched. -/
def HnswIndex.remove {α : Type} [LinearOrderedCommRing α] {P : Type}
    (idOf : P → String) (h : HnswIndex α P) (point_id : String) :
    Option (HnswIndex α P × Bool) :=
  match lookupA h.point_id_to_index point_id with
  | none => some (h, false)
  | some index =>
    let startp := index * h.dim
    let endp := startp + h.dim
    let h1 := if endp ≤ h.vectors.length then
        { h with vectors := h.vectors.take startp ++ h.vectors.drop endp }
      else h
    if index < h1.nodes.length then
      let nodes2 := h1.nodes.eraseIdx index
      some ({ h1 with nodes := nodes2, point_id_to_index := reindex idOf nodes2 }, true)
    else none

/-- The effective candidate-set size of `HnswIndex::search`:
`ef.unwrap_or_else(|| (k + k / 2).max(16)).max(k)`. -/
def hnsw_effective_ef (k : ℕ) (ef : Option ℕ) : ℕ :=
  max (ef.getD (max (k + k / 2) 16)) k

/-- Mapping of `search_layer` results to points (`&self.nodes[idx]` panics — `none` —
on an out-of-range index); similarity is `1 - dist`. -/
def results_to_points {α : Type} [LinearOrderedCommRing α] {P : Type}
    (h : HnswIndex α P) : List (ℕ × α) → Option (List (P × α))
  | [] => some []
  | (idx, dist) :: rest =>
    match h.nodes.get? idx with
    | none => none
    | some node => (results_to_points h rest).map (fun l => (node.point, 1 - dist) :: l)

/-- Model of `HnswIndex::search`: empty graph returns `[]`; under 1000 nodes a single
`search_layer` at layer 0 with the effective `ef`; otherwise a descent from the top
layer first. -/
def HnswIndex.search {α : Type} [LinearOrderedCommRing α] {P : Type}
    (h : HnswIndex α P) (query : List α) (k : ℕ) (ef : Option ℕ) :
    Option (List (P × α)) :=
  if h.nodes.isEmpty then some []
  else
    let efv := hnsw_effective_ef k ef
    let entry_point := 0
    if h.nodes.length < 1000 then
      match h.search_layer query entry_point efv 0 with
      | none => none
      | some results => results_to_points h (results.take k)
    else
      match descend_layers h query entry_point 0 (h.max_layers - 1) with
      | none => none
      | some _ =>
        match h.search_layer query entry_point efv 0 with
        | none => none
        | some results => results_to_points h (results.take k)

/-! ## Vector operations over `ℝ` — `src/lib/core/src/vector.rs`, `simd.rs` -/

/-- Model of `norm_squared_simd v = dot_product_simd v v`. -/
noncomputable def norm_squared_simd (v : List ℝ) : ℝ := dot_product_simd v v

/-- Model of `norm_simd`. -/
noncomputable def norm_simd (v : List ℝ) : ℝ := Real.sqrt (norm_squared_simd v)

/-- `f32::EPSILON = 2^(-23)` as an exact real. -/
noncomputable def f32_epsilon : ℝ := 1 / 2 ^ 23

/-- Model of `f32::INFINITY`: a value strictly above every finite `f32`. -/
noncomputable def f32_infinity : ℝ := 2 ^ 128

/-- Model of `l2_distance_simd` over `ℝ`. -/
noncomputable def l2_distance_simd (a b : List ℝ) : ℝ :=
  if a.length = b.length then Real.sqrt (l2_sq a b) else f32_infinity

/-- Model of `Vector::normalize`: scale by `1 / norm` when `norm > f32::EPSILON`. -/
noncomputable def Vector.normalize (v : List ℝ) : List ℝ :=
  if f32_epsilon < norm_simd v then v.map (fun x => x * (1 / norm_simd v)) else v

/-- Model of `Vector::cosine_similarity`. -/
noncomputable def Vector.cosine_similarity (a b : List ℝ) : ℝ :=
  if a.length = b.length then
    let dp := dot_product_simd a b
    let norm_a := norm_simd a
    let norm_b := norm_simd b
    if norm_a = 0 ∨ norm_b = 0 then 0 else dp / (norm_a * norm_b)
  else 0

/-- Model of `Vector::l2_distance` (dimension guard, then the kernel). -/
noncomputable def Vector.l2_distance (a b : List ℝ) : ℝ :=
  if a.length = b.length then l2_distance_simd a b else f32_infinity

/-! ## Points and payloads — `src/lib/core/src/point.rs`

Payloads are modelled as JSON objects restricted to the shape the claims exercise: a
flat map whose values are strings or something else (`other`).  `PointId` is modelled
by its canonical string form, which is what every index keys on.  The `multivector` and
`sparse_vectors` fields take no part in the claims against `Collection` and are
omitted. -/

/-- A payload JSON value: a string, or any other JSON value. -/
inductive PayloadVal where
  | str : String → PayloadVal
  | other : PayloadVal
deriving DecidableEq

/-- A payload JSON object. -/
def Payload : Type := List (String × PayloadVal)

/-- Model of `payload.get("text").and_then(|v| v.as_str())`. -/
def payload_get_text (p : Option Payload) : Option String :=
  match p with
  | none => none
  | some obj =>
    match lookupA obj "text" with
    | some (.str s) => some s
    | _ => none

/-- Model of `Point` (id in canonical string form). -/
structure Point where
  id : String
  version : ℕ
  vector : List ℝ
  payload : Option Payload

/-- Projection used to instantiate the generic HNSW at collection points. -/
def pointIdOf (p : Point) : String := p.id

/-- Projection used to instantiate the generic HNSW at collection points. -/
def pointVecOf (p : Point) : List ℝ := p.vector

/-! ## BM25 index — `src/lib/core/src/bm25.rs`

Only the parts the claims touch are embedded: tokenisation, `insert_doc`, `delete_doc`
and the derived membership of a document.  Scoring (`search`) is not needed by any
claim.  Strings are processed as their character lists; `to_lowercase` and the
character classes are modelled at ASCII fidelity. -/

/-- Rust `char::is_ascii_punctuation`. -/
def is_ascii_punct (c : Char) : Bool :=
  (decide (33 ≤ c.toNat) && decide (c.toNat ≤ 47)) ||
  (decide (58 ≤ c.toNat) && decide (c.toNat ≤ 64)) ||
  (decide (91 ≤ c.toNat) && decide (c.toNat ≤ 96)) ||
  (decide (123 ≤ c.toNat) && decide (c.toNat ≤ 126))

/-- Splitting a character list at separator characters, preserving empty pieces
(the semantics of Rust `str::split` with a char predicate). -/
def splitChars (p : Char → Bool) : List Char → List (List Char)
  | [] => [[]]
  | c :: cs =>
    if p c then [] :: splitChars p cs
    else
      match splitChars p cs with
      | [] => [[c]]
      | t :: ts => (c :: t) :: ts

/-- Rust `str::trim_matches(|c| !c.is_alphanumeric())` on a character list. -/
def trim_non_alnum (s : List Char) : List Char :=
  ((s.dropWhile (fun c => !c.isAlphanum)).reverse.dropWhile (fun c => !c.isAlphanum)).reverse

/-- Model of `BM25Index::tokenize`: lowercase, split on whitespace and ASCII
punctuation, trim non-alphanumeric edges, keep tokens of length at least 2. -/
def tokenize (text : String) : List String :=
  ((splitChars (fun c => c.isWhitespace || is_ascii_punct c) (text.data.map Char.toLower)).map
      (fun s => String.mk (trim_non_alnum s))).filter
    (fun s => !s.isEmpty && decide (1 < s.length))

/-- Model of `BM25Index` (the scoring constants `k1`, `b` play no part in the embedded
operations and are omitted). -/
structure BM25Index where
  inverted_index : List (String × List (String × ℕ))
  doc_lengths : List (String × ℕ)
  term_dfs : List (String × ℕ)
  total_docs : ℕ

/-- Model of `BM25Index::new`. -/
def BM25Index.new : BM25Index :=
  { inverted_index := [], doc_lengths := [], term_dfs := [], total_docs := 0 }

/-- Model of `BM25Index::delete_doc`. -/
def BM25Index.delete_doc (idx : BM25Index) (doc_id : String) : BM25Index :=
  match lookupA idx.doc_lengths doc_id with
  | none => idx
  | some _ =>
    let terms_to_update := (idx.inverted_index.filter
      (fun p => (lookupA p.2 doc_id).isSome)).map Prod.fst
    { inverted_index := idx.inverted_index.map (fun p => (p.1, eraseA p.2 doc_id))
      doc_lengths := eraseA idx.doc_lengths doc_id
      term_dfs := terms_to_update.foldl (fun dfs t => decA dfs t) idx.term_dfs
      total_docs := idx.total_docs - 1 }

/-- Term frequencies of a token list (in first-occurrence order; the source iterates a
`HashMap` in unspecified order and every downstream use is order-insensitive). -/
def term_freqs (tokens : List String) : List (String × ℕ) :=
  tokens.foldl (fun m t => bumpA m t) []

/-- Posting-list update: `inverted_index.entry(term).or_default().insert(doc_id, tf)`. -/
def invInsert (inv : List (String × List (String × ℕ))) (term doc_id : String) (tf : ℕ) :
    List (String × List (String × ℕ)) :=
  match inv with
  | [] => [(term, [(doc_id, tf)])]
  | (t, docs) :: rest =>
    if t = term then (t, insertA docs doc_id tf) :: rest
    else (t, docs) :: invInsert rest term doc_id tf

/-- Model of `BM25Index::insert_doc`: delete any existing copy, then add the token
statistics and record the document length. -/
def BM25Index.insert_doc (idx : BM25Index) (doc_id : String) (text : String) : BM25Index :=
  let idx1 := idx.delete_doc doc_id
  let tokens := tokenize text
  let doc_len := tokens.length
  let tfs := term_freqs tokens
  { inverted_index := tfs.foldl (fun inv p => invInsert inv p.1 doc_id p.2) idx1.inverted_index
    doc_lengths := insertA idx1.doc_lengths doc_id doc_len
    term_dfs := tfs.foldl (fun dfs p => bumpA dfs p.1) idx1.term_dfs
    total_docs := idx1.total_docs + 1 }

/-! ## MultiVector and MaxSim — `src/lib/core/src/multivector.rs`

`max_sim` uses only multiplication and addition, so it is embedded over `ℚ` with exact
arithmetic; `f32::NEG_INFINITY` (the running-maximum sentinel) is modelled by
`-(2^128)`, which is below every finite `f32`. -/

/-- The local `dot_product` of `multivector.rs` (plain zip-sum, no length guard). -/
def mv_dot_product (a b : List ℚ) : ℚ := (List.zipWith (fun x y => x * y) a b).sum

/-- Model of `f32::NEG_INFINITY` for the MaxSim running maximum. -/
def f32_neg_infinity_q : ℚ := -(2 ^ 128)

/-- Model of `MultiVector`. -/
structure MultiVector where
  vectors : List (List ℚ)
  dim : ℕ
deriving DecidableEq

/-- Model of `MultiVector::new`: rejects empty lists, empty rows and ragged rows. -/
def MultiVector.new (vectors : List (List ℚ)) : Option MultiVector :=
  match vectors with
  | [] => none
  | v0 :: _ =>
    if v0.length = 0 then none
    else if vectors.all (fun v => v.length = v0.length) then
      some { vectors := vectors, dim := v0.length }
    else none

/-- Model of `MultiVector::max_sim` (dot variant): per query row, the maximum dot
product over document rows starting from the `NEG_INFINITY` sentinel; a row whose
maximum stays at the sentinel contributes zero. -/
def MultiVector.max_sim (a b : MultiVector) : ℚ :=
  if a.dim ≠ b.dim then 0
  else
    (a.vectors.map (fun query_vec =>
      let m := b.vectors.foldl
        (fun acc doc_vec =>
          if acc < mv_dot_product query_vec doc_vec then mv_dot_product query_vec doc_vec
          else acc)
        f32_neg_infinity_q
      if f32_neg_infinity_q < m then m else 0)).sum

/-- Squared L2 norm of a row (`‖r‖² = dot r r`). -/
def mv_norm_sq (r : List ℚ) : ℚ := mv_dot_product r r

/-! ## Collection — `src/lib/core/src/collection.rs`, `background.rs`

The state machine with its four sub-stores.  Random layer draws are an oracle `rng`,
one coin list per HNSW insert.  Background submission is modelled by recording the
snapshot a submitted `HnswRebuildJob` captured; `HnswRebuildJob.execute` applies it.
Operations that can panic inside the HNSW return `Option`. -/

/-- Model of `Distance`. -/
inductive Distance where
  | Cosine
  | Euclidean
  | Dot
deriving DecidableEq

/-- Model of `CollectionConfig` (the name plays no part in the claims). -/
structure CollectionConfig where
  vector_dim : ℕ
  distance : Distance
  use_hnsw : Bool
  enable_bm25 : Bool

/-- Model of the collection error taxonomy restricted to the write path. -/
inductive CollError where
  | invalidDimension (expected actual : ℕ)
deriving DecidableEq

/-- Model of `Collection`. -/
structure Collection where
  config : CollectionConfig
  points : List (String × Point)
  hnsw : Option (HnswIndex ℝ Point)
  bm25 : Option BM25Index
  hnsw_built : Bool
  hnsw_rebuilding : Bool
  batch_mode : Bool
  pending_points : List Point
  submitted_rebuilds : List (List Point)
  rng : List (List Bool)

/-- Model of `Collection::new` (plus the randomness oracle). -/
def Collection.new (config : CollectionConfig) (rng : List (List Bool)) : Collection :=
  { config := config
    points := []
    hnsw := if config.use_hnsw then some (HnswIndex.new ℝ Point 16 3) else none
    bm25 := if config.enable_bm25 then some BM25Index.new else none
    hnsw_built := false
    hnsw_rebuilding := false
    batch_mode := false
    pending_points := []
    submitted_rebuilds := []
    rng := rng }

/-- The HNSW arm of `Collection::upsert`: when the index exists and is built, insert an
L2-normalised clone of the point. Returns the new index slot and remaining oracle. -/
noncomputable def Collection.upsert_hnsw_step (s : Collection) (vp : Point) :
    Option (Option (HnswIndex ℝ Point) × List (List Bool)) :=
  match s.hnsw with
  | none => some (none, s.rng)
  | some h =>
    if s.hnsw_built then
      (HnswIndex.insert pointIdOf pointVecOf h
          { vp with vector := Vector.normalize vp.vector } (s.rng.headD [])).map
        (fun h2 => (some h2, s.rng.tail))
    else some (some h, s.rng)

/-- Model of `Collection::upsert`: dimension check, version assignment from the current
primary entry, batch-mode routing to the pending buffer, then the HNSW and BM25 arms
and the primary insert. -/
noncomputable def Collection.upsert (s : Collection) (point : Point) :
    Option (Except CollError Collection) :=
  if 0 < s.config.vector_dim ∧ point.vector.length ≠ s.config.vector_dim then
    some (.error (.invalidDimension s.config.vector_dim point.vector.length))
  else
    let id_str := point.id
    let new_version :=
      match lookupA s.points id_str with
      | some existing => existing.version + 1
      | none => 0
    let vp := { point with version := new_version }
    if s.batch_mode then
      some (.ok { s with points := insertA s.points id_str vp,
                         pending_points := s.pending_points ++ [vp] })
    else
      match s.upsert_hnsw_step vp with
      | none => none
      | some (hnsw2, rng2) =>
        let bm25_2 :=
          match s.bm25, payload_get_text vp.payload with
          | some b, some text => some (b.insert_doc id_str text)
          | some b, none => some b
          | none, _ => none
        some (.ok { s with hnsw := hnsw2, rng := rng2, bm25 := bm25_2,
                           points := insertA s.points id_str vp })

/-- Model of `Collection::get`. -/
def Collection.get (s : Collection) (id : String) : Option Point :=
  lookupA s.points id

/-- Model of `Collection::delete`: remove from HNSW (if any), BM25 (if any), then the
primary; reports whether the id was present. -/
noncomputable def Collection.delete (s : Collection) (id : String) :
    Option (Collection × Bool) :=
  let hnsw_step : Option (Option (HnswIndex ℝ Point)) :=
    match s.hnsw with
    | some h => (HnswIndex.remove pointIdOf h id).map (fun pr => some pr.1)
    | none => some none
  match hnsw_step with
  | none => none
  | some hnsw2 =>
    let bm25_2 := s.bm25.map (fun b => b.delete_doc id)
    let present := (lookupA s.points id).isSome
    some ({ s with hnsw := hnsw2, bm25 := bm25_2, points := eraseA s.points id }, present)

/-- Insert a list of points into an HNSW index, one oracle entry per insert (the body of
the build loops in `prewarm_index`, the lazy build in `search`, and
`HnswRebuildJob::execute` — all of which insert the points unmodified). -/
noncomputable def hnsw_insert_all :
    HnswIndex ℝ Point → List Point → List (List Bool) →
    Option (HnswIndex ℝ Point × List (List Bool))
  | h, [], rng => some (h, rng)
  | h, p :: ps, rng =>
    match HnswIndex.insert pointIdOf pointVecOf h p (rng.headD []) with
    | none => none
    | some h2 => hnsw_insert_all h2 ps rng.tail

/-- Model of `Collection::prewarm_index`: when HNSW is enabled, not yet built, and the
collection is non-empty, build a fresh index from all current points (as stored, not
normalised) and latch `hnsw_built`. -/
noncomputable def Collection.prewarm_index (s : Collection) : Option Collection :=
  match s.hnsw with
  | none => some s
  | some _ =>
    if s.hnsw_built then some s
    else if s.points.isEmpty then some s
    else
      match hnsw_insert_all (HnswIndex.new ℝ Point 16 3) (s.points.map Prod.snd) s.rng with
      | none => none
      | some (h2, rng2) => some { s with hnsw := some h2, hnsw_built := true, rng := rng2 }

/-- The lazy build block inside `Collection::search` (identical body to
`prewarm_index`). -/
noncomputable def Collection.lazy_build (s : Collection) : Option Collection :=
  if s.hnsw_built then some s
  else if s.points.isEmpty then some s
  else
    match hnsw_insert_all (HnswIndex.new ℝ Point 16 3) (s.points.map Prod.snd) s.rng with
    | none => none
    | some (h2, rng2) => some { s with hnsw := some h2, hnsw_built := true, rng := rng2 }

/-- Model of `Collection::update_vector`: replace the primary vector, then remove and
re-insert the point (unmodified, not normalised) in the HNSW if one exists. -/
noncomputable def Collection.update_vector (s : Collection) (id : String) (vector : List ℝ) :
    Option (Collection × Bool) :=
  match lookupA s.points id with
  | none => some (s, false)
  | some point =>
    let p2 := { point with vector := vector }
    let points2 := insertA s.points id p2
    match s.hnsw with
    | none => some ({ s with points := points2 }, true)
    | some h =>
      match HnswIndex.remove pointIdOf h id with
      | none => none
      | some (h1, _) =>
        match HnswIndex.insert pointIdOf pointVecOf h1 p2 (s.rng.headD []) with
        | none => none
        | some h2 =>
          some ({ s with points := points2, hnsw := some h2, rng := s.rng.tail }, true)

/-- Model of `Collection::start_batch`. -/
def Collection.start_batch (s : Collection) : Collection :=
  { s with batch_mode := true, pending_points := [] }

/-- Model of `Collection::end_batch`: leave batch mode; above 10 000 points, when no
rebuild is in flight, latch `hnsw_rebuilding` and submit a rebuild job capturing a
snapshot of the current points; finally clear the pending buffer. -/
def Collection.end_batch (s : Collection) : Collection :=
  let s1 := { s with batch_mode := false }
  let s2 :=
    match s1.hnsw with
    | none => s1
    | some _ =>
      if 10000 < s1.points.length ∧ s1.hnsw_rebuilding = false then
        { s1 with hnsw_rebuilding := true,
                  submitted_rebuilds := s1.submitted_rebuilds ++ [s1.points.map Prod.snd] }
      else s1
  { s2 with pending_points := [] }

/-- Model of `HnswRebuildJob::execute`: build a fresh index from the captured points
(as captured, not normalised), swap it in, set `hnsw_built`, clear `hnsw_rebuilding`. -/
noncomputable def HnswRebuildJob.execute (s : Collection) (points : List Point) :
    Option Collection :=
  match hnsw_insert_all (HnswIndex.new ℝ Point 16 3) points s.rng with
  | none => none
  | some (h2, rng2) =>
    some { s with hnsw := some h2, hnsw_built := true, hnsw_rebuilding := false, rng := rng2 }

/-- The `for point in points { self.upsert(point)?; }` loop of `batch_upsert`: on the
first error the loop stops and the error propagates, leaving the state as it was before
the failing upsert. -/
noncomputable def Collection.upsert_loop :
    Collection → List Point → Option (Collection × Option CollError)
  | s, [] => some (s, none)
  | s, p :: ps =>
    match Collection.upsert s p with
    | none => none
    | some (.error e) => some (s, some e)
    | some (.ok s2) => Collection.upsert_loop s2 ps

/-- Model of `Collection::batch_upsert`: `start_batch`, the upsert loop, and — only when
every upsert succeeded — `end_batch`. -/
noncomputable def Collection.batch_upsert (s : Collection) (points : List Point) :
    Option (Collection × Option CollError) :=
  match Collection.upsert_loop s.start_batch points with
  | none => none
  | some (s1, some e) => some (s1, some e)
  | some (s1, none) => some (s1.end_batch, none)

/-- The per-point score of `Collection::brute_force_search`. -/
noncomputable def brute_score (d : Distance) (query v : List ℝ) : ℝ :=
  match d with
  | .Cosine => dot_product_simd query v
  | .Euclidean => -(l2_distance_simd query v)
  | .Dot => dot_product_simd query v

/-- Model of `Collection::brute_force_search`: score every point passing the filter and
return the top `limit` sorted descending.  (The source does a partial selection
`select_nth_unstable_by(limit)`, truncates, then sorts descending; for the total order
on scores used here both produce the top `limit` in descending order, with ties broken
in an order the source leaves unspecified.) -/
noncomputable def Collection.brute_force_search (s : Collection) (query : List ℝ)
    (limit : ℕ) (filter : Option (Point → Bool)) : List (Point × ℝ) :=
  let pts := (s.points.map Prod.snd).filter
    (fun p => match filter with | some f => f p | none => true)
  let results := pts.map (fun p => (p, brute_score s.config.distance query p.vector))
  (results.insertionSort (fun a b => b.2 ≤ a.2)).take limit

/-- The per-point score of the linear-scan arm of `Collection::search` (no HNSW). -/
noncomputable def linear_score (d : Distance) (pv query : List ℝ) : ℝ :=
  match d with
  | .Cosine => Vector.cosine_similarity pv query
  | .Euclidean => -(Vector.l2_distance pv query)
  | .Dot => (List.zipWith (fun x y => x * y) pv query).sum

/-- Model of `Collection::search`: normalise the query; under 1000 points use
brute force; otherwise use the HNSW (building it lazily first if unbuilt), applying the
filter post-hoc to its results; without an HNSW, a linear scan.  The collection is
returned alongside the results because the lazy build mutates it. -/
noncomputable def Collection.search (s : Collection) (query : List ℝ) (limit : ℕ)
    (filter : Option (Point → Bool)) : Option (List (Point × ℝ) × Collection) :=
  let normalized_query := Vector.normalize query
  if s.points.length < 1000 then
    some (s.brute_force_search normalized_query limit filter, s)
  else
    match s.hnsw with
    | some _ =>
      match (if s.hnsw_built = false then s.lazy_build else some s) with
      | none => none
      | some s1 =>
        match s1.hnsw with
        | none => none
        | some h =>
          match h.search normalized_query limit none with
          | none => none
          | some results =>
            let results2 :=
              match filter with
              | some f => results.filter (fun pr => f pr.1)
              | none => results
            some (results2, s1)
    | none =>
      let pts := (s.points.map Prod.snd).filter
        (fun p => match filter with | some f => f p | none => true)
      let results := pts.map (fun p => (p, linear_score s.config.distance p.vector query))
      some ((results.insertionSort (fun a b => b.2 ≤ a.2)).take limit, s)

/-! ## Fork-based persistence — `src/lib/storage/src/persistence.rs`

The file system is an abstract state: the contents of `dump.rdb`, `dump.rdb.tmp`,
`dump.rdb.version`, and the quarantine files.  `bincode` serialisation is an external
collaborator and enters as the serialised byte list / a deserialisation function. -/

/-- Abstract on-disk state of the persistence directory. -/
structure FsState where
  dump_rdb : Option (List ℕ)
  dump_tmp : Option (List ℕ)
  version_file : Option String
  backups : List (String × List ℕ)
deriving DecidableEq

/-- The version marker `"distx:<version>:<byte-length>"` written by `save`. -/
def version_marker (len : ℕ) : String := "distx:0.1.0:" ++ toString len

/-- Model of `ForkBasedPersistence::save` on already-serialised bytes: write
`dump.rdb.tmp`, atomically rename it to `dump.rdb`, then write the version marker. -/
def ForkBasedPersistence.save (data : List ℕ) (fs : FsState) : FsState :=
  let fs1 := { fs with dump_tmp := some data }
  let fs2 := { fs1 with dump_rdb := fs1.dump_tmp, dump_tmp := none }
  { fs2 with version_file := some (version_marker data.length) }

/-- Model of the child branch of `ForkBasedPersistence::bgsave` on the same serialised
bytes: write `dump.rdb.tmp` and rename it to `dump.rdb` — and nothing else (the child
exits without writing the version marker). -/
def ForkBasedPersistence.bgsave_child (data : List ℕ) (fs : FsState) : FsState :=
  let fs1 := { fs with dump_tmp := some data }
  { fs1 with dump_rdb := fs1.dump_tmp, dump_tmp := none }

/-- Model of `backup_and_remove_corrupt_file`: rename `dump.rdb` to
`dump.<reason>.<ts>.bak` (the rename is assumed to succeed; the source falls back to
deleting only when it fails) and remove the version file. -/
def backup_and_remove_corrupt_file (reason : String) (ts : ℕ) (fs : FsState) : FsState :=
  match fs.dump_rdb with
  | none => { fs with version_file := none }
  | some data =>
    { fs with dump_rdb := none, version_file := none,
              backups := fs.backups ++ [("dump." ++ reason ++ "." ++ toString ts ++ ".bak", data)] }

/-- Model of `ForkBasedPersistence::load_snapshot`: missing file → `none`; file without
the version marker → quarantine as `incomplete`; file under 16 bytes → quarantine as
`too_small`; deserialisation failure → quarantine as `corrupt`; otherwise the
snapshot.  `dser` models `bincode::deserialize`, `ts` the quarantine timestamp. -/
def load_snapshot {S : Type} (dser : List ℕ → Option S) (ts : ℕ) (fs : FsState) :
    FsState × Option S :=
  match fs.dump_rdb with
  | none => (fs, none)
  | some data =>
    if fs.version_file = none then (backup_and_remove_corrupt_file "incomplete" ts fs, none)
    else if data.length < 16 then (backup_and_remove_corrupt_file "too_small" ts fs, none)
    else
      match dser data with
      | some snapshot => (fs, some snapshot)
      | none => (backup_and_remove_corrupt_file "corrupt" ts fs, none)

/-! ## Operation sequences over a collection

Reachability for invariant claims: sequences of upserts and deletes.  A failed upsert
(`InvalidDimension`) leaves the state unchanged, as in the source. -/

/-- An operation on a collection: upsert a point, or delete by id. -/
inductive CollOp where
  | up (p : Point)
  | del (id : String)

/-- Apply one operation; an upsert error leaves the state unchanged. -/
noncomputable def Collection.apply_op (s : Collection) : CollOp → Option Collection
  | .up p =>
    match Collection.upsert s p with
    | none => none
    | some (.error _) => some s
    | some (.ok s2) => some s2
  | .del id => (Collection.delete s id).map Prod.fst

/-- Apply a sequence of operations. -/
noncomputable def Collection.apply_ops : Collection → List CollOp → Option Collection
  | s, [] => some s
  | s, op :: ops =>
    match Collection.apply_op s op with
    | none => none
    | some s2 => Collection.apply_ops s2 ops

/-- Membership of a document id in the BM25 index (`doc_lengths` carries exactly the
indexed documents). -/
def bm25_contains (b : BM25Index) (id : String) : Bool :=
  (lookupA b.doc_lengths id).isSome

/-- One direction of spec invariant 3: every id whose current point carries a string
`"text"` payload field is present in the BM25 index. -/
def bm25_text_invariant (s : Collection) : Prop :=
  ∀ id p b, lookupA s.points id = some p → (payload_get_text p.payload).isSome = true →
    s.bm25 = some b → bm25_contains b id = true

/-! ## Concrete scenario inputs for the claims -/

/-- A bare HNSW point for the index-level claims. -/
structure HPoint (α : Type) where
  id : String
  vec : List α
deriving DecidableEq

/-- Id projection for `HPoint`. -/
def hIdOf {α : Type} : HPoint α → String := HPoint.id

/-- Vector projection for `HPoint`. -/
def hVecOf {α : Type} : HPoint α → List α := HPoint.vec

/-- One C4 insert: a one-dimensional point, all layer draws landing on layer 0. -/
def c4_insert (h : HnswIndex ℤ (HPoint ℤ)) (id : String) (v : ℤ) :
    Option (HnswIndex ℤ (HPoint ℤ)) :=
  HnswIndex.insert hIdOf hVecOf h { id := id, vec := [v] } [false]

/-- C4 scenario: insert ids 0, 1, 2 with vectors [1], [2], [3] (all at layer 0), then
remove id 1 — leaving node 0's neighbour list with the stale index 2 while only two
nodes remain. -/
def c4_index : Option (HnswIndex ℤ (HPoint ℤ)) :=
  (c4_insert (HnswIndex.new ℤ (HPoint ℤ) 16 3) "0" 1).bind (fun h1 =>
    (c4_insert h1 "1" 2).bind (fun h2 =>
      (c4_insert h2 "2" 3).bind (fun h3 =>
        (HnswIndex.remove hIdOf h3 "1").map Prod.fst)))

/-- C4: the search over the post-remove index. -/
def c4_searched : Option (Option (List (HPoint ℤ × ℤ))) :=
  c4_index.map (fun h => h.search [1] 1 none)

/-- C1 collection configuration: dim 3, cosine, HNSW enabled. -/
def c1_config : CollectionConfig :=
  { vector_dim := 3, distance := .Cosine, use_hnsw := true, enable_bm25 := false }

/-- C1 point `i`: id `i`, vector `[i, i, i]`. -/
noncomputable def c1_point (i : ℕ) : Point :=
  { id := toString i, version := 0, vector := [(i : ℝ), (i : ℝ), (i : ℝ)], payload := none }

/-- C1 points with ids 1..9. -/
noncomputable def c1_points : List Point := (List.range 9).map (fun n => c1_point (n + 1))

/-- C1 fresh collection. -/
noncomputable def c1_state0 : Collection := Collection.new c1_config []

/-- C1 collection after the nine upserts. -/
noncomputable def c1_state9 : Collection :=
  { c1_state0 with points := c1_points.map (fun p => (p.id, p)) }

/-- The C1 cosine score of a stored (unnormalised) vector `[c, c, c]` against the
normalised query `[5,5,5]`. -/
noncomputable def c1_score (c : ℝ) : ℝ := 15 * c / Real.sqrt 75

/-- C2 point: vector `[3, 4]`, of norm 5. -/
noncomputable def c2_p : Point := { id := "1", version := 0, vector := [3, 4], payload := none }

/-- C2 scenario: upsert `[3,4]` into a fresh dim-2 HNSW collection, then
`prewarm_index`. -/
noncomputable def c2_run : Option Collection :=
  match Collection.upsert
      (Collection.new { vector_dim := 2, distance := .Cosine, use_hnsw := true,
                        enable_bm25 := false } []) c2_p with
  | some (.ok s) => s.prewarm_index
  | _ => none

/-- C2: the `hnsw_built` latch after the run. -/
noncomputable def c2_built : Option Bool := c2_run.map (fun s => s.hnsw_built)

/-- C2: the HNSW vector arena after the run. -/
noncomputable def c2_arena : Option (List ℝ) :=
  c2_run.bind (fun s => s.hnsw.map (fun h => h.vectors))

/-- C2: the primary vector of point "1" after the run. -/
noncomputable def c2_primary_vec : Option (List ℝ) :=
  c2_run.bind (fun s => (lookupA s.points "1").map (fun p => p.vector))

/-- C3 witness collection: sparse-only (dim 0), no HNSW, no BM25. -/
noncomputable def c3w_s0 : Collection :=
  Collection.new { vector_dim := 0, distance := .Cosine, use_hnsw := false,
                   enable_bm25 := false } []

/-- C3 witness points: two upserts of id "a". -/
noncomputable def c3w_ps : List Point :=
  [{ id := "a", version := 0, vector := [], payload := none },
   { id := "a", version := 5, vector := [], payload := none }]

/-- C3 witness final state. -/
noncomputable def c3w_s1 : Collection :=
  { c3w_s0 with points := [("a", { id := "a", version := 1, vector := [], payload := none })] }

/-- C5 serialised bytes (contents are irrelevant to the divergence). -/
def c5_data : List ℕ := List.replicate 20 0

/-- C5: an empty data directory. -/
def c5_fs0 : FsState := { dump_rdb := none, dump_tmp := none, version_file := none, backups := [] }

/-- C5: a deserialiser that accepts the bytes (the quarantine happens regardless). -/
def c5_dser_ok : List ℕ → Option ℕ := fun _ => some 0

/-- C6 deserialiser for the witness: accepts exactly 20-byte payloads. -/
def c6_dser : List ℕ → Option ℕ := fun data => if data.length = 20 then some 7 else none

/-- C6: no `dump.rdb`. -/
def c6_fs_missing : FsState :=
  { dump_rdb := none, dump_tmp := none, version_file := none, backups := [] }

/-- C6: `dump.rdb` present, version marker missing. -/
def c6_fs_incomplete : FsState :=
  { dump_rdb := some (List.replicate 20 0), dump_tmp := none, version_file := none, backups := [] }

/-- C6: marker present, file of 2 bytes. -/
def c6_fs_small : FsState :=
  { dump_rdb := some [1, 2], dump_tmp := none, version_file := some (version_marker 2),
    backups := [] }

/-- C6: marker present, 21 bytes the witness deserialiser rejects. -/
def c6_fs_corrupt : FsState :=
  { dump_rdb := some (List.replicate 21 0), dump_tmp := none,
    version_file := some (version_marker 21), backups := [] }

/-- C6: marker present, 20 bytes the witness deserialiser accepts. -/
def c6_fs_good : FsState :=
  { dump_rdb := some (List.replicate 20 0), dump_tmp := none,
    version_file := some (version_marker 20), backups := [] }

/-- C7 fresh BM25 collection (sparse-only dim so the empty vector is valid). -/
noncomputable def c7_s0 : Collection :=
  Collection.new { vector_dim := 0, distance := .Cosine, use_hnsw := false,
                   enable_bm25 := true } []

/-- C7 first point: id "1" with a string `text` payload. -/
noncomputable def c7_p1 : Point :=
  { id := "1", version := 0, vector := [],
    payload := some [("text", PayloadVal.str "hello world")] }

/-- C7 second point: same id, payload absent. -/
noncomputable def c7_p2 : Point := { id := "1", version := 0, vector := [], payload := none }

/-- C7 run: upsert the text-bearing point, then overwrite it with the textless one. -/
noncomputable def c7_run : Option (Collection × Option CollError) :=
  Collection.upsert_loop c7_s0 [c7_p1, c7_p2]

/-- C7: whether the current point "1" carries a `text` payload after the run. -/
noncomputable def c7_point_has_text : Option Bool :=
  match c7_run with
  | some (s, none) => (lookupA s.points "1").map (fun p => (payload_get_text p.payload).isSome)
  | _ => none

/-- C7: whether the BM25 index still contains doc "1" after the run. -/
noncomputable def c7_bm25_has_doc : Option Bool :=
  match c7_run with
  | some (s, none) => s.bm25.map (fun b => bm25_contains b "1")
  | _ => none

/-- C7 witness state: the fresh BM25 collection after upserting the text point. -/
noncomputable def c7_w_state : Collection :=
  (Collection.apply_ops c7_s0 [.up c7_p1]).getD c7_s0

/-- C9 counterexample multivector: rows `[1]` and `[2]`. -/
def c9_m : MultiVector := { vectors := [[1], [2]], dim := 1 }

/-- C10 collection: dim 1, HNSW enabled. -/
noncomputable def c10_s0 : Collection :=
  Collection.new { vector_dim := 1, distance := .Cosine, use_hnsw := true,
                   enable_bm25 := false } []

/-- C10: the invalid-dimension point. -/
noncomputable def c10_bad : Point := { id := "b", version := 0, vector := [3, 4], payload := none }

/-- C10: a valid point upserted after the failed batch. -/
noncomputable def c10_next : Point := { id := "n", version := 0, vector := [2], payload := none }

/-! ## Helper lemmas on association lists -/

theorem lookupA_insertA_self {β : Type} (l : List (String × β)) (k : String) (v : β) :
    lookupA (insertA l k v) k = some v := by
  induction l with
  | nil => simp [insertA, lookupA]
  | cons hd tl ih =>
    by_cases h : hd.1 = k
    · simp [insertA, lookupA, h]
    · simpa [insertA, lookupA, h] using ih

theorem lookupA_insertA_ne {β : Type} (l : List (String × β)) (k j : String) (v : β)
    (h : j ≠ k) : lookupA (insertA l k v) j = lookupA l j := by
  induction l with
  | nil =>
    simp only [insertA, lookupA]
    rw [if_neg (fun hh => h hh.symm)]
  | cons hd tl ih =>
    obtain ⟨k0, v0⟩ := hd
    by_cases hk : k0 = k
    · subst hk
      simp only [insertA, if_pos rfl, lookupA]
      rw [if_neg (fun hh => h hh.symm), if_neg (fun hh => h hh.symm)]
    · simp only [insertA, if_neg hk, lookupA]
      by_cases hj : k0 = j
      · rw [if_pos hj, if_pos hj]
      · rw [if_neg hj, if_neg hj]
        exact ih

theorem lookupA_eraseA_ne {β : Type} (l : List (String × β)) (k j : String) (h : j ≠ k) :
    lookupA (eraseA l k) j = lookupA l j := by
  induction l with
  | nil => rfl
  | cons hd tl ih =>
    obtain ⟨k0, v0⟩ := hd
    by_cases hk : k0 = k
    · subst hk
      have he : eraseA ((k0, v0) :: tl) k0 = tl := by simp [eraseA]
      rw [he, lookupA, if_neg (fun hh => h hh.symm)]
    · have he : eraseA ((k0, v0) :: tl) k = (k0, v0) :: eraseA tl k := by simp [eraseA, hk]
      rw [he, lookupA, lookupA]
      by_cases hj : k0 = j
      · rw [if_pos hj, if_pos hj]
      · rw [if_neg hj, if_neg hj]
        exact ih

theorem lookupA_append {β : Type} (l1 l2 : List (String × β)) (k : String) :
    lookupA (l1 ++ l2) k =
      (match lookupA l1 k with
       | some v => some v
       | none => lookupA l2 k) := by
  induction l1 with
  | nil => simp [lookupA]
  | cons hd tl ih =>
    by_cases h : hd.1 = k
    · simp [lookupA, h]
    · simp [lookupA, h, ih]

theorem insertA_fresh {β : Type} (l : List (String × β)) (k : String) (v : β)
    (h : lookupA l k = none) : insertA l k v = l ++ [(k, v)] := by
  induction l with
  | nil => simp [insertA]
  | cons hd tl ih =>
    by_cases hk : hd.1 = k
    · simp [lookupA, hk] at h
    · simp only [lookupA, if_neg hk] at h
      simp [insertA, hk, ih h]

theorem keys_insertA_subset {β : Type} (l : List (String × β)) (k j : String) (v : β)
    (h : j ∈ (insertA l k v).map Prod.fst) : j ∈ l.map Prod.fst ∨ j = k := by
  induction l with
  | nil => simpa [insertA] using h
  | cons hd tl ih =>
    by_cases hk : hd.1 = k
    · simp only [insertA, if_pos hk, List.map_cons, List.mem_cons] at h
      rcases h with h | h
      · exact Or.inr h
      · exact Or.inl (by simp [h])
    · simp only [insertA, if_neg hk, List.map_cons, List.mem_cons] at h
      rcases h with h | h
      · exact Or.inl (by simp [h])
      · rcases ih h with h2 | h2
        · exact Or.inl (by simp [h2])
        · exact Or.inr h2

theorem keys_nodup_insertA {β : Type} (l : List (String × β)) (k : String) (v : β)
    (h : (l.map Prod.fst).Nodup) : ((insertA l k v).map Prod.fst).Nodup := by
  induction l with
  | nil => simp [insertA]
  | cons hd tl ih =>
    simp only [List.map_cons, List.nodup_cons] at h
    by_cases hk : hd.1 = k
    · subst hk
      simpa [insertA, List.nodup_cons] using h
    · simp only [insertA, if_neg hk, List.map_cons, List.nodup_cons]
      refine ⟨fun hmem => ?_, ih h.2⟩
      rcases keys_insertA_subset tl k hd.1 v hmem with h2 | h2
      · exact h.1 h2
      · exact hk h2

theorem keys_eraseA_sublist {β : Type} (l : List (String × β)) (k : String) :
    ((eraseA l k).map Prod.fst).Sublist (l.map Prod.fst) := by
  induction l with
  | nil => simp [eraseA]
  | cons hd tl ih =>
    by_cases hk : hd.1 = k
    · simp only [eraseA, if_pos hk, List.map_cons]
      exact (List.sublist_cons_self _ _)
    · simp only [eraseA, if_neg hk, List.map_cons]
      exact ih.cons₂ _

theorem keys_nodup_eraseA {β : Type} (l : List (String × β)) (k : String)
    (h : (l.map Prod.fst).Nodup) : ((eraseA l k).map Prod.fst).Nodup :=
  (keys_eraseA_sublist l k).nodup h

theorem lookupA_eq_none_of_not_mem_keys {β : Type} (l : List (String × β)) (k : String)
    (h : k ∉ l.map Prod.fst) : lookupA l k = none := by
  induction l with
  | nil => rfl
  | cons hd tl ih =>
    obtain ⟨k0, v0⟩ := hd
    simp only [List.map_cons, List.mem_cons, not_or] at h
    simp only [lookupA]
    rw [if_neg (fun hh => h.1 hh.symm)]
    exact ih h.2

theorem lookupA_eraseA_self_of_nodup {β : Type} (l : List (String × β)) (k : String)
    (h : (l.map Prod.fst).Nodup) : lookupA (eraseA l k) k = none := by
  induction l with
  | nil => rfl
  | cons hd tl ih =>
    obtain ⟨k0, v0⟩ := hd
    simp only [List.map_cons, List.nodup_cons] at h
    by_cases hk : k0 = k
    · subst hk
      simp only [eraseA, if_pos rfl]
      exact lookupA_eq_none_of_not_mem_keys tl k0 h.1
    · simp only [eraseA, if_neg hk, lookupA, if_neg hk]
      exact ih h.2

/-! ## C8 — effective ef -/

/-- C8 counterexample: with `k = 1` and a caller-supplied `ef = 1`, the effective
candidate-set size is `1`, not `max(requested_ef, k, 16) = 16`: the source applies no
floor of 16 to a caller-supplied `ef`. -/
theorem C8_counterexample : hnsw_effective_ef 1 (some 1) ≠ max (max 1 1) 16 := by decide

/-- C8 (amended): the effective candidate-set size is `max(requested_ef, k)` when the
caller supplies an `ef`, and `max(k + k/2, 16)` when it passes none; `HnswIndex.search`
invokes `search_layer` at layer 0 with exactly this value. -/
theorem C8_amended :
    (∀ k e : ℕ, hnsw_effective_ef k (some e) = max e k) ∧
    (∀ k : ℕ, hnsw_effective_ef k none = max (k + k / 2) 16) ∧
    (∀ (α : Type) (_ : LinearOrderedCommRing α) (P : Type)
       (h : HnswIndex α P) (q : List α) (k : ℕ) (ef : Option ℕ),
       h.nodes.isEmpty = false → h.nodes.length < 1000 →
       h.search q k ef =
         (match h.search_layer q 0 (hnsw_effective_ef k ef) 0 with
          | none => none
          | some results => results_to_points h (results.take k))) := by
  refine ⟨fun k e => rfl, ?_, ?_⟩
  · exact fun k => Nat.max_eq_left (le_max_of_le_left (Nat.le_add_right k (k / 2)))
  · intro α inst P h q k ef hne hlt
    simp only [HnswIndex.search, hne, Bool.false_eq_true, if_false, if_pos hlt]

/-- C8 witness: the amended ef formulas at `k = 3`, and the layer-0 `search_layer`
invocation equation applied to a concrete one-node integer index. -/
theorem C8_amended_witness :
    hnsw_effective_ef 3 (some 5) = max 5 3 ∧
    hnsw_effective_ef 3 none = max (3 + 3 / 2) 16 ∧
    ((c4_insert (HnswIndex.new ℤ (HPoint ℤ) 16 3) "0" 1).getD
        (HnswIndex.new ℤ (HPoint ℤ) 16 3)).nodes.isEmpty = false ∧
    ((c4_insert (HnswIndex.new ℤ (HPoint ℤ) 16 3) "0" 1).getD
        (HnswIndex.new ℤ (HPoint ℤ) 16 3)).nodes.length < 1000 ∧
    ((c4_insert (HnswIndex.new ℤ (HPoint ℤ) 16 3) "0" 1).getD
        (HnswIndex.new ℤ (HPoint ℤ) 16 3)).search [1] 2 (some 5) =
      (match ((c4_insert (HnswIndex.new ℤ (HPoint ℤ) 16 3) "0" 1).getD
          (HnswIndex.new ℤ (HPoint ℤ) 16 3)).search_layer [1] 0
          (hnsw_effective_ef 2 (some 5)) 0 with
       | none => none
       | some results =>
         results_to_points ((c4_insert (HnswIndex.new ℤ (HPoint ℤ) 16 3) "0" 1).getD
           (HnswIndex.new ℤ (HPoint ℤ) 16 3)) (results.take 2)) :=
  ⟨C8_amended.1 3 5, C8_amended.2.1 3, by decide, by decide,
    C8_amended.2.2 ℤ inferInstance (HPoint ℤ) _ [1] 2 (some 5) (by decide) (by decide)⟩

/-! ## C5 — the bgsave child omits the version marker -/

/-- C5: on the same serialised bytes and the same (empty) data directory, the bgsave
child's on-disk result differs from `save`'s: `dump.rdb` matches, but the child never
writes `dump.rdb.version` — and the next `load_snapshot` therefore quarantines the
child's snapshot as an incomplete save even though it deserialises fine. -/
theorem C5_bgsave_child_divergence :
    ForkBasedPersistence.bgsave_child c5_data c5_fs0 ≠
      ForkBasedPersistence.save c5_data c5_fs0 ∧
    (ForkBasedPersistence.bgsave_child c5_data c5_fs0).dump_rdb = some c5_data ∧
    (ForkBasedPersistence.save c5_data c5_fs0).dump_rdb = some c5_data ∧
    (ForkBasedPersistence.bgsave_child c5_data c5_fs0).version_file = none ∧
    (ForkBasedPersistence.save c5_data c5_fs0).version_file = some (version_marker 20) ∧
    load_snapshot c5_dser_ok 99 (ForkBasedPersistence.bgsave_child c5_data c5_fs0) =
      ({ dump_rdb := none, dump_tmp := none, version_file := none,
         backups := [("dump.incomplete.99.bak", c5_data)] }, none) := by
  refine ⟨?_, rfl, rfl, rfl, by decide, by decide⟩
  decide

/-! ## C6 — load_snapshot degraded cases -/

/-- C6: `load_snapshot` on every degraded input returns `none` without failing,
quarantining by rename: no file → `none` with the directory untouched; file without the
version marker → renamed to `dump.incomplete.<ts>.bak` (contents preserved); marker
present but under 16 bytes → `dump.too_small.<ts>.bak`; marker present, big enough, but
failing deserialisation → `dump.corrupt.<ts>.bak`; successful deserialisation returns
the snapshot and leaves the directory untouched. -/
theorem C6_load_snapshot_cases {S : Type} (dser : List ℕ → Option S) (ts : ℕ)
    (fs : FsState) :
    (fs.dump_rdb = none → load_snapshot dser ts fs = (fs, none)) ∧
    (∀ data, fs.dump_rdb = some data → fs.version_file = none →
      load_snapshot dser ts fs =
        ({ fs with dump_rdb := none, version_file := none,
                   backups := fs.backups ++ [("dump.incomplete." ++ toString ts ++ ".bak", data)] },
         none)) ∧
    (∀ data, fs.dump_rdb = some data → fs.version_file ≠ none → data.length < 16 →
      load_snapshot dser ts fs =
        ({ fs with dump_rdb := none, version_file := none,
                   backups := fs.backups ++ [("dump.too_small." ++ toString ts ++ ".bak", data)] },
         none)) ∧
    (∀ data, fs.dump_rdb = some data → fs.version_file ≠ none → ¬ data.length < 16 →
      dser data = none →
      load_snapshot dser ts fs =
        ({ fs with dump_rdb := none, version_file := none,
                   backups := fs.backups ++ [("dump.corrupt." ++ toString ts ++ ".bak", data)] },
         none)) ∧
    (∀ data snapshot, fs.dump_rdb = some data → fs.version_file ≠ none →
      ¬ data.length < 16 → dser data = some snapshot →
      load_snapshot dser ts fs = (fs, some snapshot)) := by
  refine ⟨fun h => by simp [load_snapshot, h], ?_, ?_, ?_, ?_⟩
  · intro data hd hv
    simp [load_snapshot, hd, hv, backup_and_remove_corrupt_file]
  · intro data hd hv hlen
    simp [load_snapshot, hd, hv, if_pos hlen, backup_and_remove_corrupt_file]
  · intro data hd hv hlen hdser
    simp [load_snapshot, hd, hv, if_neg hlen, hdser, backup_and_remove_corrupt_file]
  · intro data snapshot hd hv hlen hdser
    simp [load_snapshot, hd, hv, if_neg hlen, hdser]

/-- C6 witness: the five cases of `C6_load_snapshot_cases`, each evaluated on a concrete
file-system state with timestamp 7. -/
theorem C6_load_snapshot_cases_witness :
    load_snapshot c6_dser 7 c6_fs_missing = (c6_fs_missing, none) ∧
    load_snapshot c6_dser 7 c6_fs_incomplete =
      (⟨none, none, none, [("dump.incomplete.7.bak", List.replicate 20 0)]⟩, none) ∧
    load_snapshot c6_dser 7 c6_fs_small =
      (⟨none, none, none, [("dump.too_small.7.bak", [1, 2])]⟩, none) ∧
    load_snapshot c6_dser 7 c6_fs_corrupt =
      (⟨none, none, none, [("dump.corrupt.7.bak", List.replicate 21 0)]⟩, none) ∧
    load_snapshot c6_dser 7 c6_fs_good = (c6_fs_good, some 7) := by
  refine ⟨(C6_load_snapshot_cases c6_dser 7 c6_fs_missing).1 rfl, ?_, ?_, ?_, ?_⟩
  · exact (C6_load_snapshot_cases c6_dser 7 c6_fs_incomplete).2.1 _ rfl rfl
  · exact (C6_load_snapshot_cases c6_dser 7 c6_fs_small).2.2.1 _ rfl (by decide) (by decide)
  · exact (C6_load_snapshot_cases c6_dser 7 c6_fs_corrupt).2.2.2.1 _ rfl (by decide)
      (by decide) (by decide)
  · exact (C6_load_snapshot_cases c6_dser 7 c6_fs_good).2.2.2.2 _ _ rfl (by decide)
      (by decide) (by decide)

/-! ## C4 — stale indices after remove reach an out-of-bounds arena read -/

/-- C4: after inserting three one-dimensional points (each at layer 0) and removing the
middle one, the surviving node 0 still lists the stale neighbour index 2 while only two
nodes remain; the next search dereferences it inside `search_layer`, reading
`vectors[2..3)` of a 2-element arena through `get_unchecked` — modelled as `none`
(undefined behaviour), refuting that every node and arena access in `search_layer`
stays in bounds. -/
theorem C4_search_out_of_bounds :
    c4_index.map (fun h => h.nodes.length) = some 2 ∧
    c4_index.map (fun h => h.vectors.length) = some 2 ∧
    c4_index.map (fun h => (h.nodes.headD ⟨⟨"", []⟩, []⟩).layers.getD 0 []) = some [1, 2] ∧
    c4_searched = some none := by
  refine ⟨by decide, by decide, by decide, by decide⟩

/-! ## C9 — MaxSim self-similarity -/

theorem mv_norm_sq_nonneg (r : List ℚ) : 0 ≤ mv_norm_sq r := by
  unfold mv_norm_sq mv_dot_product
  rw [List.zipWith_same]
  exact List.sum_nonneg (by
    intro x hx
    obtain ⟨y, _, rfl⟩ := List.mem_map.mp hx
    exact mul_self_nonneg y)

theorem maxsim_fold_ge_init (r : List ℚ) :
    ∀ (l : List (List ℚ)) (init : ℚ),
      init ≤ l.foldl (fun acc dv =>
        if acc < mv_dot_product r dv then mv_dot_product r dv else acc) init := by
  intro l
  induction l with
  | nil => intro init; simp
  | cons x xs ih =>
    intro init
    refine le_trans ?_ (ih _)
    by_cases hx : init < mv_dot_product r x
    · simpa [hx] using le_of_lt hx
    · simp [hx]

theorem maxsim_fold_ge_mem (r : List ℚ) :
    ∀ (l : List (List ℚ)) (init : ℚ) (d : List ℚ), d ∈ l →
      mv_dot_product r d ≤ l.foldl (fun acc dv =>
        if acc < mv_dot_product r dv then mv_dot_product r dv else acc) init := by
  intro l
  induction l with
  | nil => intro init d hd; simp at hd
  | cons x xs ih =>
    intro init d hd
    rcases List.mem_cons.mp hd with rfl | hd
    · refine le_trans ?_ (maxsim_fold_ge_init r xs _)
      by_cases hx : init < mv_dot_product r d
      · simp [hx]
      · simpa [hx] using le_of_not_lt hx
    · exact ih _ d hd

/-- C9 counterexample: for `M = [[1], [2]]` (non-empty, rows of equal dimension),
`max_sim(M, M) = 6` while `Σ_i ‖M_i‖² = 5` — the claimed identity fails because a row's
best match need not be itself (`dot([1],[2]) = 2 > 1 = ‖[1]‖²`). -/
theorem C9_counterexample :
    MultiVector.new [[1], [2]] = some c9_m ∧
    c9_m.max_sim c9_m = 6 ∧
    (c9_m.vectors.map mv_norm_sq).sum = 5 ∧
    c9_m.max_sim c9_m ≠ (c9_m.vectors.map mv_norm_sq).sum := by
  have h1 : c9_m.max_sim c9_m = 6 := by
    norm_num [MultiVector.max_sim, mv_dot_product, f32_neg_infinity_q, c9_m]
  have h2 : (c9_m.vectors.map mv_norm_sq).sum = 5 := by
    norm_num [mv_norm_sq, mv_dot_product, c9_m]
  exact ⟨rfl, h1, h2, by rw [h1, h2]; norm_num⟩

/-- C9 (amended): for every multivector accepted by the constructor (non-empty, equal
row dimensions), `max_sim(M, M) ≥ Σ_i ‖M_i‖²`, with equality exactly when each row's
best match is itself (as in the spec's orthogonal-rows scenario S5); the dot-variant
identity as an equality does not hold in general. -/
theorem C9_amended (rows : List (List ℚ)) (m : MultiVector)
    (h : MultiVector.new rows = some m) :
    (m.vectors.map mv_norm_sq).sum ≤ m.max_sim m := by
  unfold MultiVector.max_sim
  rw [if_neg (by simp)]
  refine List.sum_le_sum ?_
  intro r hr
  have hd : mv_dot_product r r ≤ m.vectors.foldl
      (fun acc dv => if acc < mv_dot_product r dv then mv_dot_product r dv else acc)
      f32_neg_infinity_q :=
    maxsim_fold_ge_mem r m.vectors f32_neg_infinity_q r hr
  have hnn : (0 : ℚ) ≤ mv_dot_product r r := mv_norm_sq_nonneg r
  have hsent : f32_neg_infinity_q < m.vectors.foldl
      (fun acc dv => if acc < mv_dot_product r dv then mv_dot_product r dv else acc)
      f32_neg_infinity_q := by
    refine lt_of_lt_of_le ?_ (le_trans hnn hd)
    unfold f32_neg_infinity_q
    norm_num
  rw [if_pos hsent]
  exact hd

/-- C9 witness: the amended inequality applied to the concrete multivector
`[[1], [2]]`. -/
theorem C9_amended_witness :
    (c9_m.vectors.map mv_norm_sq).sum ≤ c9_m.max_sim c9_m :=
  C9_amended [[1], [2]] c9_m rfl

/-! ## Upsert characterisation lemmas -/

theorem upsert_ok_points {s : Collection} {p : Point} {s' : Collection}
    (h : Collection.upsert s p = some (.ok s')) :
    s'.points = insertA s.points p.id
      { p with version := (match lookupA s.points p.id with
                           | some existing => existing.version + 1
                           | none => 0) } ∧
    s'.batch_mode = s.batch_mode ∧ s'.config = s.config ∧
    (s.batch_mode = false →
      s'.bm25 = (match s.bm25, payload_get_text p.payload with
                 | some b, some text => some (b.insert_doc p.id text)
                 | some b, none => some b
                 | none, _ => none)) ∧
    (s.batch_mode = true → s'.bm25 = s.bm25) := by
  simp only [Collection.upsert] at h
  by_cases hdim : 0 < s.config.vector_dim ∧ p.vector.length ≠ s.config.vector_dim
  · rw [if_pos hdim] at h
    simp at h
  · rw [if_neg hdim] at h
    by_cases hb : s.batch_mode = true
    · rw [if_pos hb] at h
      simp only [Option.some.injEq, Except.ok.injEq] at h
      subst h
      simp [hb]
    · rw [if_neg hb] at h
      cases hstep : s.upsert_hnsw_step
          { p with version := (match lookupA s.points p.id with
                               | some existing => existing.version + 1
                               | none => 0) } with
      | none => rw [hstep] at h; simp at h
      | some pr =>
        obtain ⟨hnsw2, rng2⟩ := pr
        rw [hstep] at h
        simp only [Option.some.injEq, Except.ok.injEq] at h
        subst h
        simp [hb]

theorem upsert_ok_lookup_self {s : Collection} {p : Point} {s' : Collection}
    (h : Collection.upsert s p = some (.ok s')) :
    lookupA s'.points p.id =
      some { p with version := (match lookupA s.points p.id with
                                | some existing => existing.version + 1
                                | none => 0) } := by
  rw [(upsert_ok_points h).1]
  exact lookupA_insertA_self _ _ _

theorem upsert_dim_error (s : Collection) (p : Point)
    (h1 : 0 < s.config.vector_dim) (h2 : p.vector.length ≠ s.config.vector_dim) :
    Collection.upsert s p =
      some (.error (.invalidDimension s.config.vector_dim p.vector.length)) := by
  simp only [Collection.upsert]
  rw [if_pos ⟨h1, h2⟩]

theorem upsert_batch_eq (s : Collection) (p : Point) (hb : s.batch_mode = true)
    (hdim : ¬(0 < s.config.vector_dim ∧ p.vector.length ≠ s.config.vector_dim)) :
    Collection.upsert s p = some (.ok { s with
      points := insertA s.points p.id
        { p with version := (match lookupA s.points p.id with
                             | some existing => existing.version + 1
                             | none => 0) },
      pending_points := s.pending_points ++
        [{ p with version := (match lookupA s.points p.id with
                              | some existing => existing.version + 1
                              | none => 0) }] }) := by
  simp only [Collection.upsert]
  rw [if_neg hdim, if_pos hb]

/-! ## C3 — versions count upserts -/

theorem upsert_loop_version_aux (id : String) :
    ∀ (ps : List Point) (s : Collection) (v : ℕ),
      (∀ p ∈ ps, p.id = id) →
      (lookupA s.points id).map Point.version = some v →
      ∀ s1, Collection.upsert_loop s ps = some (s1, none) →
      (lookupA s1.points id).map Point.version = some (v + ps.length) := by
  intro ps
  induction ps with
  | nil =>
    intro s v _ hv s1 hrun
    simp only [Collection.upsert_loop, Option.some.injEq, Prod.mk.injEq] at hrun
    rw [← hrun.1]
    simpa using hv
  | cons p rest ih =>
    intro s v hid hv s1 hrun
    simp only [Collection.upsert_loop] at hrun
    cases hu : Collection.upsert s p with
    | none => rw [hu] at hrun; simp at hrun
    | some r =>
      cases r with
      | error e => rw [hu] at hrun; simp at hrun
      | ok s2 =>
        rw [hu] at hrun
        have hpid : p.id = id := hid p (List.mem_cons_self p rest)
        have hl := upsert_ok_lookup_self hu
        rw [hpid] at hl
        cases hx : lookupA s.points id with
        | none => rw [hx] at hv; simp at hv
        | some q =>
          rw [hx] at hv
          simp at hv
          rw [hx] at hl
          have hv2 : (lookupA s2.points id).map Point.version = some (v + 1) := by
            rw [hl]
            simp [hv]
          have := ih s2 (v + 1) (fun q hq => hid q (List.mem_cons_of_mem p hq)) hv2 s1 hrun
          rw [this]
          congr 1
          simp only [List.length_cons]
          omega

/-- C3: for every id and every sequence of `n ≥ 1` successful upserts of points with
that id into a collection where the id is initially absent, `get(id)` afterwards
returns a point of version `n - 1` — the first upsert assigns version 0 and each later
one the prior version plus 1. -/
theorem C3_upsert_version_counts (s0 : Collection) (id : String) (ps : List Point)
    (h0 : lookupA s0.points id = none) (hne : ps ≠ [])
    (hid : ∀ p ∈ ps, p.id = id) (s1 : Collection)
    (hrun : Collection.upsert_loop s0 ps = some (s1, none)) :
    (Collection.get s1 id).map Point.version = some (ps.length - 1) := by
  cases ps with
  | nil => exact absurd rfl hne
  | cons p rest =>
    simp only [Collection.upsert_loop] at hrun
    cases hu : Collection.upsert s0 p with
    | none => rw [hu] at hrun; simp at hrun
    | some r =>
      cases r with
      | error e => rw [hu] at hrun; simp at hrun
      | ok s2 =>
        rw [hu] at hrun
        have hpid : p.id = id := hid p (List.mem_cons_self p rest)
        have hl := upsert_ok_lookup_self hu
        rw [hpid, h0] at hl
        have hv2 : (lookupA s2.points id).map Point.version = some 0 := by
          rw [hl]
          rfl
        have := upsert_loop_version_aux id rest s2 0
          (fun q hq => hid q (List.mem_cons_of_mem p hq)) hv2 s1 hrun
        rw [Collection.get, this]
        simp

/-- C3 witness: two successive upserts of id "a" into a fresh collection end with
version 1 = 2 - 1. -/
theorem C3_witness :
    Collection.upsert_loop c3w_s0 c3w_ps = some (c3w_s1, none) ∧
    (Collection.get c3w_s1 "a").map Point.version = some (c3w_ps.length - 1) := by
  have hrun : Collection.upsert_loop c3w_s0 c3w_ps = some (c3w_s1, none) := rfl
  refine ⟨hrun, C3_upsert_version_counts c3w_s0 "a" c3w_ps rfl (by simp [c3w_ps]) ?_ c3w_s1 hrun⟩
  intro p hp
  simp only [c3w_ps, List.mem_cons, List.mem_singleton] at hp
  rcases hp with rfl | hp
  · rfl
  · rcases hp with rfl | hp
    · rfl
    · simp at hp

/-! ## C10 — a failed batch_upsert leaves batch mode latched -/

theorem upsert_loop_batch_error (bad : Point) (rest : List Point) :
    ∀ (good : List Point) (s : Collection),
      s.batch_mode = true → 0 < s.config.vector_dim →
      (∀ p ∈ good, p.vector.length = s.config.vector_dim) →
      bad.vector.length ≠ s.config.vector_dim →
      ∃ s1, Collection.upsert_loop s (good ++ bad :: rest) =
          some (s1, some (.invalidDimension s.config.vector_dim bad.vector.length)) ∧
        s1.batch_mode = true ∧ s1.config = s.config := by
  intro good
  induction good with
  | nil =>
    intro s hb hdim _ hbad
    refine ⟨s, ?_, hb, rfl⟩
    simp only [List.nil_append, Collection.upsert_loop]
    rw [upsert_dim_error s bad hdim hbad]
  | cons p good2 ih =>
    intro s hb hdim hgood hbad
    have hpdim : ¬(0 < s.config.vector_dim ∧ p.vector.length ≠ s.config.vector_dim) := by
      push_neg
      intro _
      exact hgood p (List.mem_cons_self p good2)
    have hu := upsert_batch_eq s p hb hpdim
    simp only [List.cons_append, Collection.upsert_loop]
    rw [hu]
    exact ih _ hb hdim (fun q hq => hgood q (List.mem_cons_of_mem p hq)) hbad

/-- C10: if some point of a `batch_upsert` has an invalid dimension, the call returns
`Err(InvalidDimension)` at the first failing point without ever reaching `end_batch`,
so the collection is left with `batch_mode = true`; every subsequent plain upsert of a
valid point is then silently routed to the pending buffer (and the primary map) and
touches neither the HNSW nor the BM25 index. -/
theorem C10_batch_error_leaves_batch_mode (s : Collection) (good : List Point)
    (bad : Point) (rest : List Point)
    (hdim : 0 < s.config.vector_dim)
    (hgood : ∀ p ∈ good, p.vector.length = s.config.vector_dim)
    (hbad : bad.vector.length ≠ s.config.vector_dim) :
    ∃ s1, Collection.batch_upsert s (good ++ bad :: rest) =
        some (s1, some (.invalidDimension s.config.vector_dim bad.vector.length)) ∧
      s1.batch_mode = true ∧
      ∀ q : Point, q.vector.length = s.config.vector_dim →
        ∃ vq, Collection.upsert s1 q = some (.ok { s1 with
          points := insertA s1.points q.id vq,
          pending_points := s1.pending_points ++ [vq] }) := by
  obtain ⟨s1, hloop, hb1, hcfg1⟩ := upsert_loop_batch_error bad rest good s.start_batch rfl
    hdim hgood hbad
  refine ⟨s1, ?_, hb1, ?_⟩
  · simp only [Collection.batch_upsert]
    rw [hloop]
    rfl
  · intro q hq
    refine ⟨_, upsert_batch_eq s1 q hb1 ?_⟩
    push_neg
    intro _
    rw [hcfg1]
    exact hq

/-- C10 witness: a fresh dim-1 HNSW collection, a batch consisting solely of a 2-long
vector, then a valid upsert. -/
theorem C10_witness :
    ∃ s1, Collection.batch_upsert c10_s0 ([] ++ c10_bad :: []) =
        some (s1, some (.invalidDimension c10_s0.config.vector_dim c10_bad.vector.length)) ∧
      s1.batch_mode = true ∧
      ∀ q : Point, q.vector.length = c10_s0.config.vector_dim →
        ∃ vq, Collection.upsert s1 q = some (.ok { s1 with
          points := insertA s1.points q.id vq,
          pending_points := s1.pending_points ++ [vq] }) :=
  C10_batch_error_leaves_batch_mode c10_s0 [] c10_bad [] (by decide) (by simp) (by decide)

/-! ## C7 — BM25 membership

The true direction: ids with a string `text` payload are always indexed (outside batch
mode); the false direction (the claim's "exactly"): an upsert that drops the `text`
field leaves the stale document behind. -/

theorem bm25_contains_insert_doc_self (b : BM25Index) (id t : String) :
    bm25_contains (b.insert_doc id t) id = true := by
  simp only [BM25Index.insert_doc, bm25_contains]
  rw [lookupA_insertA_self]
  rfl

theorem lookupA_delete_doc (b : BM25Index) (id j : String) (h : j ≠ id) :
    lookupA (b.delete_doc id).doc_lengths j = lookupA b.doc_lengths j := by
  unfold BM25Index.delete_doc
  cases hx : lookupA b.doc_lengths id with
  | none => simp only [hx]
  | some len =>
    simp only [hx]
    exact lookupA_eraseA_ne _ _ _ h

theorem bm25_contains_insert_doc_other (b : BM25Index) (id t j : String) (h : j ≠ id) :
    bm25_contains (b.insert_doc id t) j = bm25_contains b j := by
  simp only [BM25Index.insert_doc, bm25_contains]
  rw [lookupA_insertA_ne _ _ _ _ h, lookupA_delete_doc b id j h]

theorem bm25_contains_delete_doc_other (b : BM25Index) (id j : String) (h : j ≠ id) :
    bm25_contains (b.delete_doc id) j = bm25_contains b j := by
  simp only [bm25_contains]
  rw [lookupA_delete_doc b id j h]

theorem delete_some_fields {s : Collection} {id : String} {s2 : Collection}
    {present : Bool} (h : Collection.delete s id = some (s2, present)) :
    s2.points = eraseA s.points id ∧
    s2.bm25 = s.bm25.map (fun b => b.delete_doc id) ∧
    s2.batch_mode = s.batch_mode ∧ s2.config = s.config := by
  simp only [Collection.delete] at h
  cases hs : s.hnsw with
  | none =>
    simp only [hs] at h
    simp only [Option.some.injEq, Prod.mk.injEq] at h
    rw [← h.1]
    exact ⟨rfl, rfl, rfl, rfl⟩
  | some h0 =>
    simp only [hs] at h
    cases hr : HnswIndex.remove pointIdOf h0 id with
    | none =>
      simp only [hr, Option.map] at h
      exact Option.noConfusion h
    | some pr =>
      simp only [hr, Option.map] at h
      simp only [Option.some.injEq, Prod.mk.injEq] at h
      rw [← h.1]
      exact ⟨rfl, rfl, rfl, rfl⟩

theorem bm25_inv_step (s : Collection) (op : CollOp) (s2 : Collection)
    (hb : s.batch_mode = false) (hnd : (s.points.map Prod.fst).Nodup)
    (hinv : bm25_text_invariant s)
    (h : Collection.apply_op s op = some s2) :
    bm25_text_invariant s2 ∧ (s2.points.map Prod.fst).Nodup ∧ s2.batch_mode = false := by
  cases op with
  | up p =>
    simp only [Collection.apply_op] at h
    cases hu : Collection.upsert s p with
    | none => rw [hu] at h; exact Option.noConfusion h
    | some r =>
      cases r with
      | error e =>
        rw [hu] at h
        injection h with h
        rw [← h]
        exact ⟨hinv, hnd, hb⟩
      | ok s' =>
        rw [hu] at h
        injection h with h
        rw [← h]
        obtain ⟨hpts, hbatch, _, hbm25, _⟩ := upsert_ok_points hu
        have hb2 : s'.batch_mode = false := hbatch.trans hb
        have hnd2 : (s'.points.map Prod.fst).Nodup := by
          rw [hpts]
          exact keys_nodup_insertA _ _ _ hnd
        refine ⟨?_, hnd2, hb2⟩
        intro j q b hlq htext hbq
        have hbm25' := hbm25 hb
        by_cases hj : j = p.id
        · subst hj
          rw [hpts, lookupA_insertA_self] at hlq
          injection hlq with hq
          have htext2 : (payload_get_text p.payload).isSome = true := by
            rw [← hq] at htext
            exact htext
          cases hpt : payload_get_text p.payload with
          | none => rw [hpt] at htext2; exact Bool.noConfusion htext2
          | some t =>
            rw [hpt] at hbm25'
            cases hsb : s.bm25 with
            | none =>
              rw [hsb] at hbm25'
              rw [hbm25'] at hbq
              exact Option.noConfusion hbq
            | some b0 =>
              rw [hsb] at hbm25'
              rw [hbm25'] at hbq
              injection hbq with hbq
              rw [← hbq]
              exact bm25_contains_insert_doc_self b0 p.id t
        · rw [hpts, lookupA_insertA_ne _ _ _ _ hj] at hlq
          cases hsb : s.bm25 with
          | none =>
            cases hpt : payload_get_text p.payload with
            | none =>
              rw [hsb, hpt] at hbm25'
              rw [hbm25'] at hbq
              exact Option.noConfusion hbq
            | some t =>
              rw [hsb, hpt] at hbm25'
              rw [hbm25'] at hbq
              exact Option.noConfusion hbq
          | some b0 =>
            have hc0 : bm25_contains b0 j = true := hinv j q b0 hlq htext hsb
            cases hpt : payload_get_text p.payload with
            | none =>
              rw [hsb, hpt] at hbm25'
              rw [hbm25'] at hbq
              injection hbq with hbq
              rw [← hbq]
              exact hc0
            | some t =>
              rw [hsb, hpt] at hbm25'
              rw [hbm25'] at hbq
              injection hbq with hbq
              rw [← hbq]
              rw [bm25_contains_insert_doc_other b0 p.id t j hj]
              exact hc0
  | del did =>
    simp only [Collection.apply_op] at h
    cases hd : Collection.delete s did with
    | none => rw [hd] at h; exact Option.noConfusion h
    | some pr =>
      obtain ⟨s', present⟩ := pr
      rw [hd] at h
      simp only [Option.map] at h
      injection h with h
      rw [← h]
      obtain ⟨hpts, hbm25, hbatch, _⟩ := delete_some_fields hd
      have hnd2 : (s'.points.map Prod.fst).Nodup := by
        rw [hpts]
        exact keys_nodup_eraseA _ _ hnd
      refine ⟨?_, hnd2, hbatch.trans hb⟩
      intro j q b hlq htext hbq
      by_cases hj : j = did
      · subst hj
        rw [hpts, lookupA_eraseA_self_of_nodup _ _ hnd] at hlq
        exact Option.noConfusion hlq
      · rw [hpts, lookupA_eraseA_ne _ _ _ hj] at hlq
        cases hsb : s.bm25 with
        | none =>
          rw [hsb] at hbm25
          simp only [Option.map] at hbm25
          rw [hbm25] at hbq
          exact Option.noConfusion hbq
        | some b0 =>
          rw [hsb] at hbm25
          simp only [Option.map] at hbm25
          rw [hbm25] at hbq
          injection hbq with hbq
          rw [← hbq]
          rw [bm25_contains_delete_doc_other b0 did j hj]
          exact hinv j q b0 hlq htext hsb

/-- C7 (amended): outside batch mode, after any sequence of upserts and deletes the
BM25 index contains at least every id whose current point carries a string `"text"`
payload field — but not exactly that set: `upsert` never deletes a stale BM25 document
(see the counterexample), so the inclusion cannot be strengthened to the claimed
equality. -/
theorem C7_bm25_superset_invariant (s : Collection) (ops : List CollOp) (s' : Collection)
    (hb : s.batch_mode = false) (hnd : (s.points.map Prod.fst).Nodup)
    (hinv : bm25_text_invariant s)
    (hrun : Collection.apply_ops s ops = some s') :
    bm25_text_invariant s' ∧ (s'.points.map Prod.fst).Nodup ∧ s'.batch_mode = false := by
  induction ops generalizing s with
  | nil =>
    simp only [Collection.apply_ops, Option.some.injEq] at hrun
    subst hrun
    exact ⟨hinv, hnd, hb⟩
  | cons op ops ih =>
    simp only [Collection.apply_ops] at hrun
    cases hstep : Collection.apply_op s op with
    | none => rw [hstep] at hrun; simp at hrun
    | some s2 =>
      rw [hstep] at hrun
      obtain ⟨hinv2, hnd2, hb2⟩ := bm25_inv_step s op s2 hb hnd hinv hstep
      exact ih s2 hb2 hnd2 hinv2 hrun

/-- C7 witness: the inclusion invariant applied to the fresh BM25 collection after
upserting the text-carrying point. -/
theorem C7_bm25_superset_invariant_witness :
    bm25_text_invariant c7_w_state ∧ c7_w_state.batch_mode = false := by
  have h := C7_bm25_superset_invariant c7_s0 [.up c7_p1] c7_w_state rfl
    (by simp [c7_s0, Collection.new]) ?_ rfl
  · exact ⟨h.1, h.2.2⟩
  · intro id p b hlq _ _
    simp [c7_s0, Collection.new, lookupA] at hlq

/-- C7 counterexample: in a BM25 collection, upserting id "1" with a `"text"` payload
and then overwriting it with a point whose payload lacks `text` leaves the current
point textless while the BM25 index still contains doc "1" — refuting that the index
contains exactly the ids whose current payload carries a string `text`. -/
theorem C7_counterexample :
    c7_point_has_text = some false ∧ c7_bm25_has_doc = some true := ⟨rfl, rfl⟩

/-! ## C2 — the HNSW arena is not normalised on the build paths -/

theorem norm_simd_34 : norm_simd [3, 4] = 5 := by
  have h : norm_squared_simd [3, 4] = 25 := by
    simp [norm_squared_simd, dot_product_simd]
    norm_num
  rw [norm_simd, h, show (25:ℝ) = 5 ^ 2 by norm_num,
    Real.sqrt_sq (by norm_num : (0:ℝ) ≤ 5)]

theorem normalize_34 : Vector.normalize [3, 4] = [3 / 5, 4 / 5] := by
  rw [Vector.normalize, if_pos]
  · rw [norm_simd_34]
    norm_num
  · rw [norm_simd_34, f32_epsilon]
    norm_num

/-- C2: the failing input for the arena-normalisation invariant: upsert `[3,4]` into a
fresh dim-2 HNSW collection and call `prewarm_index`.  Afterwards `hnsw_built = true`
but the arena holds the raw vector `[3,4]`, not the L2-normalised copy `[3/5, 4/5]` of
the primary vector — `prewarm_index` (like the lazy build in `search`,
`HnswRebuildJob::execute`, and `update_vector`) inserts points without normalising. -/
theorem C2_prewarm_unnormalized :
    c2_built = some true ∧
    c2_arena = some [3, 4] ∧
    c2_primary_vec = some [3, 4] ∧
    Vector.normalize [3, 4] = [3 / 5, 4 / 5] ∧
    ([3, 4] : List ℝ) ≠ [3 / 5, 4 / 5] := by
  refine ⟨rfl, rfl, rfl, normalize_34, ?_⟩
  intro h
  rw [List.cons.injEq] at h
  have := h.1
  norm_num at this

/-! ## C1 — basic cosine search scenario S1 -/

theorem upsert_fresh_eq (s : Collection) (p : Point)
    (hb : s.batch_mode = false) (hbuilt : s.hnsw_built = false) (hbm : s.bm25 = none)
    (hdim : ¬(0 < s.config.vector_dim ∧ p.vector.length ≠ s.config.vector_dim))
    (hfresh : lookupA s.points p.id = none) :
    Collection.upsert s p =
      some (.ok { s with points := s.points ++ [(p.id, { p with version := 0 })] }) := by
  obtain ⟨cfg, pts, hn, bm, built, reb, batch, pend, sub, rng⟩ := s
  simp only at hb hbuilt hbm hfresh hdim ⊢
  subst hb
  subst hbuilt
  subst hbm
  simp only [Collection.upsert, Collection.upsert_hnsw_step, hfresh]
  rw [if_neg hdim]
  cases hn with
  | none => simp [insertA_fresh _ _ _ hfresh]
  | some h0 => simp [insertA_fresh _ _ _ hfresh]

theorem upsert_loop_fresh (ps : List Point) :
    ∀ (s : Collection),
      s.batch_mode = false → s.hnsw_built = false → s.bm25 = none →
      (∀ p ∈ ps, ¬(0 < s.config.vector_dim ∧ p.vector.length ≠ s.config.vector_dim)) →
      (∀ p ∈ ps, lookupA s.points p.id = none) →
      (ps.map Point.id).Nodup →
      Collection.upsert_loop s ps =
        some ({ s with
          points := s.points ++ ps.map (fun p => (p.id, { p with version := 0 })) }, none) := by
  induction ps with
  | nil =>
    intro s _ _ _ _ _ _
    simp [Collection.upsert_loop]
  | cons p rest ih =>
    intro s hb hbuilt hbm hdim hfresh hnd
    simp only [Collection.upsert_loop,
      upsert_fresh_eq s p hb hbuilt hbm (hdim p (List.mem_cons_self p rest))
        (hfresh p (List.mem_cons_self p rest))]
    simp only [List.map_cons, List.nodup_cons] at hnd
    have hrest := ih { s with points := s.points ++ [(p.id, { p with version := 0 })] }
      hb hbuilt hbm
      (fun q hq => hdim q (List.mem_cons_of_mem p hq))
      (fun q hq => by
        show lookupA (s.points ++ [(p.id, { p with version := 0 })]) q.id = none
        rw [lookupA_append, hfresh q (List.mem_cons_of_mem p hq)]
        simp only [lookupA]
        rw [if_neg (fun hh : p.id = q.id =>
          hnd.1 (by rw [hh]; exact List.mem_map_of_mem Point.id hq))])
      hnd.2
    rw [hrest]
    simp [List.append_assoc]

theorem c1_state0_points : c1_state0.points = [] := rfl

theorem c1_run_eq : Collection.upsert_loop c1_state0 c1_points = some (c1_state9, none) := by
  rw [upsert_loop_fresh c1_points c1_state0 rfl rfl rfl ?_ ?_ ?_]
  · have hmap : c1_points.map (fun p => (p.id, { p with version := 0 })) =
        c1_points.map (fun p => (p.id, p)) := by
      refine List.map_congr_left ?_
      intro p hp
      simp only [c1_points, List.mem_map] at hp
      obtain ⟨n, _, rfl⟩ := hp
      rfl
    rw [hmap]
    rfl
  · intro p hp
    simp only [c1_points, List.mem_map] at hp
    obtain ⟨n, _, rfl⟩ := hp
    intro hcontra
    exact hcontra.2 rfl
  · intro p _
    rw [c1_state0_points]
    rfl
  · have : c1_points.map Point.id = (List.range 9).map (fun n => toString (n + 1)) := by
      simp only [c1_points, List.map_map]
      exact List.map_congr_left (fun a _ => rfl)
    rw [this]
    decide

theorem norm_simd_555 : norm_simd [5, 5, 5] = Real.sqrt 75 := by
  have h : norm_squared_simd [5, 5, 5] = 75 := by
    simp [norm_squared_simd, dot_product_simd]
    norm_num
  rw [norm_simd, h]

theorem sqrt75_pos : 0 < Real.sqrt 75 := Real.sqrt_pos.mpr (by norm_num)

theorem sqrt75_ge_8 : (8 : ℝ) ≤ Real.sqrt 75 := by
  rw [show (8:ℝ) = Real.sqrt 64 by
    rw [show (64:ℝ) = 8 ^ 2 by norm_num, Real.sqrt_sq (by norm_num : (0:ℝ) ≤ 8)]]
  exact Real.sqrt_le_sqrt (by norm_num)

theorem sqrt75_le_9 : Real.sqrt 75 ≤ 9 := by
  rw [show (9:ℝ) = Real.sqrt 81 by
    rw [show (81:ℝ) = 9 ^ 2 by norm_num, Real.sqrt_sq (by norm_num : (0:ℝ) ≤ 9)]]
  exact Real.sqrt_le_sqrt (by norm_num)

theorem normalize_555 :
    Vector.normalize [5, 5, 5] =
      [5 * (1 / Real.sqrt 75), 5 * (1 / Real.sqrt 75), 5 * (1 / Real.sqrt 75)] := by
  rw [Vector.normalize, if_pos]
  · rw [norm_simd_555]
    rfl
  · rw [norm_simd_555, f32_epsilon]
    have := sqrt75_ge_8
    norm_num
    linarith

theorem c1_score_eval (c : ℝ) :
    brute_score Distance.Cosine (Vector.normalize [5, 5, 5]) [c, c, c] = c1_score c := by
  simp only [brute_score]
  rw [normalize_555]
  rw [show ∀ a b : List ℝ, dot_product_simd a b =
      if a.length = b.length then (List.zipWith (fun x y => x * y) a b).sum else 0
    from fun a b => rfl]
  rw [if_pos (show ([5 * (1 / Real.sqrt 75), 5 * (1 / Real.sqrt 75),
    5 * (1 / Real.sqrt 75)] : List ℝ).length = ([c, c, c] : List ℝ).length from rfl)]
  simp only [List.zipWith, List.sum_cons, List.sum_nil]
  rw [c1_score]
  ring

theorem c1_score_lt {a b : ℝ} (h : a < b) : c1_score a < c1_score b := by
  rw [c1_score, c1_score, div_lt_div_iff₀ sqrt75_pos sqrt75_pos]
  nlinarith [sqrt75_pos]

theorem c1_score_gt_8 {c : ℝ} (h : (7 : ℝ) ≤ c) : 8 < c1_score c := by
  rw [c1_score, lt_div_iff₀ sqrt75_pos]
  nlinarith [sqrt75_le_9, sqrt75_pos]

theorem orderedInsert_eq_append {β : Type} (r : β → β → Prop) [DecidableRel r] (a : β) :
    ∀ (l : List β), (∀ b ∈ l, ¬ r a b) → l.orderedInsert r a = l ++ [a] := by
  intro l
  induction l with
  | nil => intro _; rfl
  | cons x xs ih =>
    intro h
    rw [List.orderedInsert, if_neg (h x (List.mem_cons_self x xs))]
    rw [ih (fun b hb => h b (List.mem_cons_of_mem x hb))]
    rfl

theorem insertionSort_desc_of_sorted_asc {β : Type} (key : β → ℝ) :
    ∀ (l : List β), l.Pairwise (fun x y => key x < key y) →
      l.insertionSort (fun x y => key y ≤ key x) = l.reverse := by
  intro l
  induction l with
  | nil => intro _; rfl
  | cons x xs ih =>
    intro hp
    rw [List.insertionSort, ih (List.Pairwise.of_cons hp)]
    rw [orderedInsert_eq_append _ x _ ?_]
    · simp
    · intro b hb
      rw [List.mem_reverse] at hb
      exact not_le.mpr ((List.pairwise_cons.mp hp).1 b hb)

theorem c1_search_eval :
    Collection.search c1_state9 [5, 5, 5] 3 none =
      some ([(c1_point 9, c1_score 9), (c1_point 8, c1_score 8), (c1_point 7, c1_score 7)],
            c1_state9) := by
  have hlen : c1_state9.points.length = 9 := by
    simp [c1_state9, c1_points]
  simp only [Collection.search]
  rw [if_pos (by rw [hlen]; norm_num)]
  simp only [Collection.brute_force_search]
  have hpts : c1_state9.points.map Prod.snd = c1_points := by
    simp only [c1_state9, List.map_map]
    exact (List.map_congr_left (fun a _ => rfl)).trans (List.map_id _)
  have hfilter : (c1_state9.points.map Prod.snd).filter (fun p => true) = c1_points := by
    rw [hpts, List.filter_true]
  rw [hfilter]
  have hscore : c1_points.map
      (fun p => (p, brute_score c1_state9.config.distance (Vector.normalize [5, 5, 5]) p.vector)) =
      (List.range 9).map (fun n => (c1_point (n + 1), c1_score ((n : ℝ) + 1))) := by
    simp only [c1_points, List.map_map]
    refine List.map_congr_left ?_
    intro n _
    simp only [Function.comp]
    have hd : c1_state9.config.distance = Distance.Cosine := rfl
    rw [hd]
    have hv : (c1_point (n + 1)).vector = [((n + 1 : ℕ) : ℝ), ((n + 1 : ℕ) : ℝ), ((n + 1 : ℕ) : ℝ)] := rfl
    rw [hv, c1_score_eval]
    norm_num
  rw [hscore]
  have hpair : ((List.range 9).map (fun n => (c1_point (n + 1), c1_score ((n : ℝ) + 1)))).Pairwise
      (fun x y => x.2 < y.2) := by
    rw [List.pairwise_map]
    refine (List.pairwise_lt_range 9).imp ?_
    intro m n hmn
    exact c1_score_lt (by exact_mod_cast (by omega : m + 1 < n + 1))
  rw [insertionSort_desc_of_sorted_asc Prod.snd _ hpair]
  rw [← List.map_reverse]
  rw [show (List.range 9).reverse = [8, 7, 6, 5, 4, 3, 2, 1, 0] by decide]
  simp only [List.map_cons, List.take_cons, List.take_zero]
  norm_num

/-- C1 counterexample: after inserting ids 1..9 with vectors `[i,i,i]` into a dim-3
cosine HNSW collection, `search([5,5,5], 3)` does NOT return ids `{5,4,6}` with
similarities within `1e-6` of 1: the stored vectors are never normalised, so the
brute-force cosine path (taken because 9 < 1000) scores each point `i·√3 ≈ 1.73·i`
and returns ids 9, 8, 7. -/
theorem C1_counterexample :
    Collection.upsert_loop c1_state0 c1_points = some (c1_state9, none) ∧
    ¬ ∃ res st, Collection.search c1_state9 [5, 5, 5] 3 none = some (res, st) ∧
        (res.map (fun pr => pr.1.id)).Perm ["5", "4", "6"] ∧
        ∀ pr ∈ res, |pr.2 - 1| ≤ 1 / 1000000 := by
  refine ⟨c1_run_eq, ?_⟩
  rintro ⟨res, st, hs, hperm, _⟩
  rw [c1_search_eval] at hs
  injection hs with hs
  rw [Prod.mk.injEq] at hs
  rw [← hs.1] at hperm
  exact absurd hperm (by decide)

/-- C1 (amended): the search over this scenario returns the points with ids 9, 8, 7 (in
that order), with similarities `15·i/√75 = i·√3`, each greater than 8 — far from 1.0 —
because the primary store keeps raw vectors and `brute_force_search` dots the
normalised query against them. -/
theorem C1_amended :
    Collection.upsert_loop c1_state0 c1_points = some (c1_state9, none) ∧
    Collection.search c1_state9 [5, 5, 5] 3 none =
      some ([(c1_point 9, c1_score 9), (c1_point 8, c1_score 8), (c1_point 7, c1_score 7)],
            c1_state9) ∧
    (c1_point 9).id = "9" ∧ (c1_point 8).id = "8" ∧ (c1_point 7).id = "7" ∧
    8 < c1_score 9 ∧ 8 < c1_score 8 ∧ 8 < c1_score 7 := by
  refine ⟨c1_run_eq, c1_search_eval, rfl, rfl, rfl, ?_, ?_, ?_⟩
  · exact c1_score_gt_8 (by norm_num)
  · exact c1_score_gt_8 (by norm_num)
  · exact c1_score_gt_8 (by norm_num)

end DistX
